import Mathlib

/-!
# A shallow embedding of the Mesos slave (agent) actor

This file embeds the data model and message handlers of
`src/slave/slave.cpp` (an early Mesos node agent) and proves the testable
properties of its specification.

Modelling conventions:

* `hashmap<K, V>` is modelled as an insertion-ordered association list
  `List (String × V)`: `operator[]` assignment replaces the value of the
  first entry with the key (or appends a fresh entry at the end), and
  `erase` removes the first entry with the key.
* `UPID` (a process endpoint) is a `String`; the default `UPID()` is `""`,
  matching the C++ truthiness test `!executor->pid`.
* A `CHECK(...)` or `LOG(FATAL)` aborts the process, so every handler
  returns `Option (SlaveState × List Effect)`; `none` models the abort.
* Outbound messages, dispatches to the isolation module, `link` calls and
  `delay`ed self-messages are collected in order as a `List Effect`.
* The `Resources` class lives outside the given source tree; it is
  modelled from the spec: a mapping from resource name to a scalar with
  component-wise add and subtract (see `Resources.eval` and friends).
-/

namespace Mesos

/-- Association-list lookup: first entry with the key, like `hashmap` access. -/
def lookupA {β : Type} : List (String × β) → String → Option β
  | [], _ => none
  | (k, v) :: rest, key => if k = key then some v else lookupA rest key

/-- `hashmap::contains`. -/
def containsA {β : Type} (l : List (String × β)) (key : String) : Bool :=
  (lookupA l key).isSome

/-- `hashmap` assignment `m[k] = v`: replace the first entry with the key,
or append a fresh entry at the end (insertion order preserved). -/
def insertA {β : Type} : List (String × β) → String → β → List (String × β)
  | [], key, v => [(key, v)]
  | (k, w) :: rest, key, v =>
    if k = key then (key, v) :: rest else (k, w) :: insertA rest key v

/-- `hashmap::erase`: drop the first entry with the key. -/
def eraseA {β : Type} : List (String × β) → String → List (String × β)
  | [], _ => []
  | (k, w) :: rest, key => if k = key then rest else (k, w) :: eraseA rest key

/-- In-place mutation through a looked-up pointer: update the value of the
first entry with the key, if present. -/
def updateA {β : Type} : List (String × β) → String → (β → β) → List (String × β)
  | [], _, _ => []
  | (k, v) :: rest, key, f =>
    if k = key then (k, f v) :: rest else (k, v) :: updateA rest key f

/-- Modelled from the spec: a resource bundle (the `Resources` class is not
part of the given source tree). "A mapping from resource name to a scalar
value. Supports add and subtract component-wise." Represented as the list
of its (name, value) components. -/
def Resources : Type := List (String × Int)

instance : DecidableEq Resources := by
  unfold Resources
  infer_instance

/-- The scalar a bundle assigns to a resource name (absent names are 0). -/
def Resources.eval : Resources → String → Int
  | [], _ => 0
  | (m, v) :: rest, n => (if m = n then v else 0) + Resources.eval rest n

/-- Modelled from the spec: add one named scalar (`resources += resource`). -/
def Resources.addOne : Resources → String → Int → Resources
  | [], n, v => [(n, v)]
  | (m, w) :: rest, n, v =>
    if m = n then (m, w + v) :: rest else (m, w) :: Resources.addOne rest n v

/-- Modelled from the spec: subtract one named scalar (`resources -= resource`). -/
def Resources.subOne : Resources → String → Int → Resources
  | [], n, v => [(n, -v)]
  | (m, w) :: rest, n, v =>
    if m = n then (m, w - v) :: rest else (m, w) :: Resources.subOne rest n v

/-- Modelled from the spec: add a whole bundle component-wise
(`resources += task.resources()`). -/
def Resources.plusAll (r : Resources) (other : Resources) : Resources :=
  other.foldl (fun acc p => Resources.addOne acc p.1 p.2) r

/-- Modelled from the spec: the loop
`foreach (resource, task->resources()) resources -= resource;`. -/
def Resources.minusAll (r : Resources) (other : Resources) : Resources :=
  other.foldl (fun acc p => Resources.subOne acc p.1 p.2) r

/-- Task states (`TaskState` enum). -/
inductive TaskState
  | STARTING
  | RUNNING
  | FINISHED
  | FAILED
  | KILLED
  | LOST
deriving DecidableEq

/-- `ExecutorInfo`: descriptor of an executor. -/
structure ExecutorInfo where
  executorId : String
  uri : String
  data : String
deriving DecidableEq

/-- `TaskDescription`: a task as assigned by the master. -/
structure TaskDescription where
  name : String
  taskId : String
  slaveId : String
  resources : Resources
  executor : Option ExecutorInfo
deriving DecidableEq

/-- `Task`: a launched task record (built by `Executor::addTask`). -/
structure Task where
  frameworkId : String
  executorId : String
  state : TaskState
  name : String
  taskId : String
  slaveId : String
  resources : Resources
deriving DecidableEq

/-- `TaskStatus` inside a status update. -/
structure TaskStatus where
  taskId : String
  state : TaskState
deriving DecidableEq

/-- `StatusUpdate` protobuf. -/
structure StatusUpdate where
  frameworkId : String
  executorId : Option String
  slaveId : String
  status : TaskStatus
  timestamp : Int
  sequence : Int
deriving DecidableEq

/-- `FrameworkInfo`: descriptor of a framework. -/
structure FrameworkInfo where
  name : String
  user : String
  executor : ExecutorInfo
deriving DecidableEq

/-- `SlaveInfo` (hostname, public hostname, total resources). -/
structure SlaveInfo where
  hostname : String
  publicHostname : String
  resources : Resources
deriving DecidableEq

/-- `struct Executor` from `slave.cpp`. -/
structure Executor where
  id : String
  info : ExecutorInfo
  frameworkId : String
  directory : String
  pid : String
  resources : Resources
  queuedTasks : List (String × TaskDescription)
  launchedTasks : List (String × Task)
deriving DecidableEq

/-- `struct Framework` from `slave.cpp`. -/
structure Framework where
  id : String
  info : FrameworkInfo
  pid : String
  executors : List (String × Executor)
  updates : List (String × StatusUpdate)
deriving DecidableEq

/-- The slave's statistics counters (`stats`), with the per-state task map
flattened into one field per state. -/
structure Stats where
  taskStarting : Nat
  taskRunning : Nat
  taskFinished : Nat
  taskFailed : Nat
  taskKilled : Nat
  taskLost : Nat
  validStatusUpdates : Nat
  invalidStatusUpdates : Nat
  validFrameworkMessages : Nat
  invalidFrameworkMessages : Nat
deriving DecidableEq

/-- `stats.tasks[state]++`. -/
def Stats.bump (st : Stats) : TaskState → Stats
  | TaskState.STARTING => { st with taskStarting := st.taskStarting + 1 }
  | TaskState.RUNNING => { st with taskRunning := st.taskRunning + 1 }
  | TaskState.FINISHED => { st with taskFinished := st.taskFinished + 1 }
  | TaskState.FAILED => { st with taskFailed := st.taskFailed + 1 }
  | TaskState.KILLED => { st with taskKilled := st.taskKilled + 1 }
  | TaskState.LOST => { st with taskLost := st.taskLost + 1 }

/-- All counters at zero (`Slave::initialize`). -/
def Stats.zero : Stats := ⟨0, 0, 0, 0, 0, 0, 0, 0, 0, 0⟩

/-- The agent's mutable state. -/
structure SlaveState where
  id : String
  master : String
  info : SlaveInfo
  resources : Resources
  frameworks : List (String × Framework)
  stats : Stats
deriving DecidableEq

/-- `ExecutorArgs` carried by `ExecutorRegisteredMessage`. -/
structure ExecutorArgs where
  frameworkId : String
  executorId : String
  slaveId : String
  hostname : String
  data : String
deriving DecidableEq

/-- Outbound typed messages. -/
inductive Msg
  | registerSlave (info : SlaveInfo)
  | reregisterSlave (slaveId : String) (info : SlaveInfo) (tasks : List Task)
  | statusUpdateMsg (update : StatusUpdate) (reliable : Bool)
  | exitedExecutor (slaveId frameworkId executorId : String) (status : Int)
  | executorRegistered (args : ExecutorArgs)
  | runTaskMsg (framework : FrameworkInfo) (frameworkId pid : String)
      (task : TaskDescription)
  | killTaskMsg (frameworkId taskId : String)
  | shutdownMsg
  | frameworkToExecutor (slaveId frameworkId executorId payload : String)
  | executorToFramework (slaveId frameworkId executorId payload : String)
  | pong
deriving DecidableEq

/-- Asynchronous dispatches to the isolation module. -/
inductive IsoCall
  | launchExecutor (frameworkId : String) (framework : FrameworkInfo)
      (executor : ExecutorInfo) (directory : String)
  | resourcesChanged (frameworkId executorId : String) (resources : Resources)
  | killExecutorCall (frameworkId executorId : String)
deriving DecidableEq

/-- One observable side effect of a handler, in program order. -/
inductive Effect
  | send (dest : String) (msg : Msg)
  | dispatch (call : IsoCall)
  | delayTimeout (update : StatusUpdate)
  | link (pid : String)
deriving DecidableEq

/-- The messages a handler run sends to one particular endpoint, in order. -/
def sendsTo (dest : String) (effs : List Effect) : List Msg :=
  effs.filterMap fun eff =>
    match eff with
    | Effect.send q m => if q = dest then some m else none
    | _ => none

/-- The `Task` record built by `Executor::addTask` (lines 46-53): state
`TASK_STARTING`, framework and executor ids from the owning executor, the
rest copied from the `TaskDescription`. -/
def taskOf (frameworkId executorId : String) (task : TaskDescription) : Task :=
  ⟨frameworkId, executorId, TaskState.STARTING, task.name, task.taskId,
    task.slaveId, task.resources⟩

/-- `Executor::addTask` (lines 40-57): `CHECK(!launchedTasks.contains(...))`
models as `none`; otherwise build the `Task` record in state `TASK_STARTING`
and accumulate its resources. -/
def Executor.addTask (e : Executor) (task : TaskDescription) : Option Executor :=
  if containsA e.launchedTasks task.taskId then none
  else
    some { e with
            launchedTasks := insertA e.launchedTasks task.taskId
              (taskOf e.frameworkId e.id task),
            resources := Resources.plusAll e.resources task.resources }

/-- `Executor::removeTask` (lines 59-73): erase from `queuedTasks`, and if
launched, subtract its resources and erase it. -/
def Executor.removeTask (e : Executor) (taskId : String) : Executor :=
  let e1 := { e with queuedTasks := eraseA e.queuedTasks taskId }
  match lookupA e1.launchedTasks taskId with
  | some t =>
      { e1 with
          resources := Resources.minusAll e1.resources t.resources,
          launchedTasks := eraseA e1.launchedTasks taskId }
  | none => e1

/-- `Executor::updateTaskState` (lines 75-80): set the state of the launched
task, if present. -/
def Executor.updateTaskState (e : Executor) (taskId : String) (state : TaskState) :
    Executor :=
  { e with launchedTasks := updateA e.launchedTasks taskId (fun t => { t with state := state }) }

/-- `Framework::createExecutor` (lines 108-115): `CHECK(!executors.contains)`
models as `none`. Returns the framework with the new executor inserted, and
the new executor. -/
def Framework.createExecutor (fw : Framework) (executorInfo : ExecutorInfo)
    (directory : String) : Option (Framework × Executor) :=
  let e : Executor :=
    ⟨executorInfo.executorId, executorInfo, fw.id, directory, "", [], [], []⟩
  if containsA fw.executors executorInfo.executorId then none
  else some ({ fw with executors := insertA fw.executors executorInfo.executorId e }, e)

/-- `Framework::destroyExecutor` (lines 117-124). -/
def Framework.destroyExecutor (fw : Framework) (executorId : String) : Framework :=
  { fw with executors := eraseA fw.executors executorId }

/-- `Framework::getExecutor(ExecutorID)` (lines 126-133). -/
def Framework.getExecutor (fw : Framework) (executorId : String) : Option Executor :=
  lookupA fw.executors executorId

/-- `Framework::getExecutor(TaskID)` (lines 135-145): the first executor whose
`queuedTasks` or `launchedTasks` contains the task. Returns the map key along
with the executor so that in-place pointer mutation can be modelled. -/
def Framework.getExecutorForTask (fw : Framework) (taskId : String) :
    Option (String × Executor) :=
  fw.executors.find? fun p =>
    containsA p.2.queuedTasks taskId || containsA p.2.launchedTasks taskId

/-- `Slave::getFramework` (lines 1327-1334). -/
def Slave.getFramework (s : SlaveState) (frameworkId : String) : Option Framework :=
  lookupA s.frameworks frameworkId

/-- Bump `invalidFrameworkMessages`. -/
def Slave.invalidFM (s : SlaveState) : SlaveState :=
  { s with stats :=
      { s.stats with invalidFrameworkMessages := s.stats.invalidFrameworkMessages + 1 } }

/-- Bump `validFrameworkMessages`. -/
def Slave.validFM (s : SlaveState) : SlaveState :=
  { s with stats :=
      { s.stats with validFrameworkMessages := s.stats.validFrameworkMessages + 1 } }

/-- `Slave::newMasterDetected` (lines 470-499): record the master, link it,
then register (empty slave id) or re-register with every launched task. -/
def Slave.newMasterDetected (s : SlaveState) (pid : String) :
    Option (SlaveState × List Effect) :=
  let s2 := { s with master := pid }
  if s2.id = "" then
    some (s2, [Effect.link pid, Effect.send s2.master (Msg.registerSlave s2.info)])
  else
    let tasks : List Task :=
      s2.frameworks.flatMap fun fp =>
        fp.2.executors.flatMap fun ep =>
          ep.2.launchedTasks.map fun tp => tp.2
    some (s2, [Effect.link pid,
               Effect.send s2.master (Msg.reregisterSlave s2.id s2.info tasks)])

/-- `Slave::noMasterDetected` (lines 502-505): log and wait. -/
def Slave.noMasterDetected (s : SlaveState) : Option (SlaveState × List Effect) :=
  some (s, [])

/-- `Slave::registered` (lines 508-512). -/
def Slave.registered (s : SlaveState) (slaveId : String) :
    Option (SlaveState × List Effect) :=
  some ({ s with id := slaveId }, [])

/-- `Slave::reregistered` (lines 515-522): a mismatched id is `LOG(FATAL)`. -/
def Slave.reregistered (s : SlaveState) (slaveId : String) :
    Option (SlaveState × List Effect) :=
  if s.id = slaveId then some (s, []) else none

/-- `Slave::runTask` (lines 525-594). The work directory returned by
`getUniqueWorkDirectory` probes the filesystem, so it enters as the
`directory` argument. -/
def Slave.runTask (s : SlaveState) (frameworkInfo : FrameworkInfo)
    (frameworkId pid : String) (task : TaskDescription) (directory : String) :
    Option (SlaveState × List Effect) :=
  let framework : Framework :=
    match Slave.getFramework s frameworkId with
    | some f => f
    | none => ⟨frameworkId, frameworkInfo, pid, [], []⟩
  let executorKey : String :=
    match task.executor with
    | some einfo => einfo.executorId
    | none => framework.info.executor.executorId
  match Framework.getExecutor framework executorKey with
  | some e =>
    if e.pid = "" then
      let e2 := { e with queuedTasks := insertA e.queuedTasks task.taskId task }
      let fw2 := { framework with executors := insertA framework.executors executorKey e2 }
      some ({ s with frameworks := insertA s.frameworks frameworkId fw2 }, [])
    else
      match Executor.addTask e task with
      | none => none
      | some e2 =>
        let fw2 := { framework with executors := insertA framework.executors executorKey e2 }
        some ({ s with
                  frameworks := insertA s.frameworks frameworkId fw2,
                  stats := Stats.bump s.stats TaskState.STARTING },
              [Effect.send e.pid
                 (Msg.runTaskMsg framework.info framework.id framework.pid task),
               Effect.dispatch (IsoCall.resourcesChanged framework.id e.id e2.resources)])
  | none =>
    let executorInfo : ExecutorInfo :=
      match task.executor with
      | some einfo => einfo
      | none => framework.info.executor
    match Framework.createExecutor framework executorInfo directory with
    | none => none
    | some (fw2, e) =>
      let e2 := { e with queuedTasks := insertA e.queuedTasks task.taskId task }
      let fw3 := { fw2 with executors := insertA fw2.executors executorInfo.executorId e2 }
      some ({ s with frameworks := insertA s.frameworks frameworkId fw3 },
            [Effect.dispatch
               (IsoCall.launchExecutor framework.id framework.info e.info directory)])

/-- `Slave::killTask` (lines 597-673). `now` stands for `elapsedTime()`. -/
def Slave.killTask (s : SlaveState) (frameworkId taskId : String) (now : Int) :
    Option (SlaveState × List Effect) :=
  match Slave.getFramework s frameworkId with
  | none =>
    let update : StatusUpdate :=
      ⟨frameworkId, none, s.id, ⟨taskId, TaskState.LOST⟩, now, -1⟩
    some (s, [Effect.send s.master (Msg.statusUpdateMsg update false)])
  | some framework =>
    match Framework.getExecutorForTask framework taskId with
    | none =>
      let update : StatusUpdate :=
        ⟨framework.id, none, s.id, ⟨taskId, TaskState.LOST⟩, now, -1⟩
      some (s, [Effect.send s.master (Msg.statusUpdateMsg update false)])
    | some (ekey, e) =>
      if e.pid = "" then
        let e2 := Executor.removeTask e taskId
        let fw2 := { framework with executors := insertA framework.executors ekey e2 }
        let update : StatusUpdate :=
          ⟨framework.id, some e.id, s.id, ⟨taskId, TaskState.KILLED⟩, now, 0⟩
        some ({ s with frameworks := insertA s.frameworks frameworkId fw2 },
              [Effect.dispatch (IsoCall.resourcesChanged framework.id e.id e2.resources),
               Effect.send s.master (Msg.statusUpdateMsg update false)])
      else
        some (s, [Effect.send e.pid (Msg.killTaskMsg frameworkId taskId)])

/-- `Slave::removeExecutor` (lines 1571-1599). -/
def Slave.removeExecutor (framework : Framework) (e : Executor)
    (killExecutor : Bool) : Framework × List Effect :=
  let effs : List Effect :=
    if killExecutor then
      [Effect.send e.pid Msg.shutdownMsg,
       Effect.dispatch (IsoCall.killExecutorCall framework.id e.id)]
    else []
  (Framework.destroyExecutor framework e.id, effs)

/-- `Slave::removeFramework` (lines 1557-1568): remove every executor
(iterating over a copy of the map), then erase the framework. -/
def Slave.removeFramework (s : SlaveState) (framework : Framework)
    (killExecutors : Bool) : SlaveState × List Effect :=
  let folded :=
    framework.executors.foldl
      (fun (acc : Framework × List Effect) p =>
        let r := Slave.removeExecutor acc.1 p.2 killExecutors
        (r.1, acc.2 ++ r.2))
      (framework, [])
  ({ s with frameworks := eraseA s.frameworks framework.id }, folded.2)

/-- `Slave::killFramework` (lines 676-684). -/
def Slave.killFramework (s : SlaveState) (frameworkId : String) :
    Option (SlaveState × List Effect) :=
  match Slave.getFramework s frameworkId with
  | none => some (s, [])
  | some framework => some (Slave.removeFramework s framework true)

/-- `Slave::schedulerMessage` (lines 687-724). -/
def Slave.schedulerMessage (s : SlaveState)
    (slaveId frameworkId executorId payload : String) :
    Option (SlaveState × List Effect) :=
  match Slave.getFramework s frameworkId with
  | none => some (Slave.invalidFM s, [])
  | some framework =>
    match Framework.getExecutor framework executorId with
    | none => some (Slave.invalidFM s, [])
    | some e =>
      if e.pid = "" then some (Slave.invalidFM s, [])
      else
        some (Slave.validFM s,
              [Effect.send e.pid
                 (Msg.frameworkToExecutor slaveId frameworkId executorId payload)])

/-- `Slave::updateFramework` (lines 727-736). -/
def Slave.updateFramework (s : SlaveState) (frameworkId pid : String) :
    Option (SlaveState × List Effect) :=
  match Slave.getFramework s frameworkId with
  | none => some (s, [])
  | some framework =>
    let fw2 := { framework with pid := pid }
    some ({ s with frameworks := insertA s.frameworks frameworkId fw2 }, [])

/-- `Slave::statusUpdateAcknowledgement` (lines 739-753). -/
def Slave.statusUpdateAcknowledgement (s : SlaveState)
    (slaveId frameworkId taskId : String) : Option (SlaveState × List Effect) :=
  match Slave.getFramework s frameworkId with
  | none => some (s, [])
  | some framework =>
    if containsA framework.updates taskId then
      let fw2 := { framework with updates := eraseA framework.updates taskId }
      some ({ s with frameworks := insertA s.frameworks frameworkId fw2 }, [])
    else some (s, [])

/-- The drain loop of `Slave::registerExecutor` (lines 876-888): for each
queued task, `addTask` it (a `CHECK` may abort), bump the `STARTING` counter
and send a `RunTaskMessage` to the executor. The list argument is the
sequence in which `foreachvalue` visits the entries of the
`hashmap<TaskID, TaskDescription>` `queuedTasks` (line 876); the C++
`hashmap` leaves that iteration order unspecified, so any permutation of
the stored entries is an admissible value for it. -/
def Slave.runQueuedTasks (finfo : FrameworkInfo) (fid fpid epid : String) :
    List (String × TaskDescription) → Executor → Stats →
    Option (Executor × Stats × List Effect)
  | [], e, st => some (e, st, [])
  | (_, task) :: rest, e, st =>
    match Executor.addTask e task with
    | none => none
    | some e2 =>
      match Slave.runQueuedTasks finfo fid fpid epid rest e2
          (Stats.bump st TaskState.STARTING) with
      | none => none
      | some (e3, st2, effs) =>
        some (e3, st2, Effect.send epid (Msg.runTaskMsg finfo fid fpid task) :: effs)

/-- `Slave::registerExecutor` (lines 827-892). `sender` is `from()`. This
version fixes the unspecified `foreachvalue` iteration order of line 876 to
the model's insertion order (`e2.queuedTasks` as stored);
`Slave.registerExecutorOrd` below is the order-generic handler. -/
def Slave.registerExecutor (s : SlaveState) (frameworkId executorId sender : String) :
    Option (SlaveState × List Effect) :=
  match Slave.getFramework s frameworkId with
  | none => some (s, [Effect.send sender Msg.shutdownMsg])
  | some framework =>
    match Framework.getExecutor framework executorId with
    | none => some (s, [Effect.send sender Msg.shutdownMsg])
    | some e =>
      if e.pid ≠ "" then some (s, [Effect.send sender Msg.shutdownMsg])
      else
        let e2 := { e with pid := sender }
        let args : ExecutorArgs :=
          ⟨framework.id, e2.id, s.id, s.info.hostname, e2.info.data⟩
        match Slave.runQueuedTasks framework.info framework.id framework.pid e2.pid
            e2.queuedTasks e2 s.stats with
        | none => none
        | some (e3, st2, effs) =>
          let e4 := { e3 with queuedTasks := [] }
          let fw2 := { framework with executors := insertA framework.executors executorId e4 }
          some ({ s with frameworks := insertA s.frameworks frameworkId fw2, stats := st2 },
                Effect.dispatch (IsoCall.resourcesChanged framework.id e2.id e2.resources)
                  :: Effect.send e2.pid (Msg.executorRegistered args) :: effs)

/-- `Slave::registerExecutor` (lines 827-892) with the `foreachvalue`
iteration order over `queuedTasks` (line 876) as an explicit parameter
`ord`: the C++ `hashmap` does not specify it, so the faithful reading
quantifies over every permutation of the stored entries.
`Slave.registerExecutor` is the instance at `ord = e2.queuedTasks`. -/
def Slave.registerExecutorOrd (ord : List (String × TaskDescription))
    (s : SlaveState) (frameworkId executorId sender : String) :
    Option (SlaveState × List Effect) :=
  match Slave.getFramework s frameworkId with
  | none => some (s, [Effect.send sender Msg.shutdownMsg])
  | some framework =>
    match Framework.getExecutor framework executorId with
    | none => some (s, [Effect.send sender Msg.shutdownMsg])
    | some e =>
      if e.pid ≠ "" then some (s, [Effect.send sender Msg.shutdownMsg])
      else
        let e2 := { e with pid := sender }
        let args : ExecutorArgs :=
          ⟨framework.id, e2.id, s.id, s.info.hostname, e2.info.data⟩
        match Slave.runQueuedTasks framework.info framework.id framework.pid e2.pid
            ord e2 s.stats with
        | none => none
        | some (e3, st2, effs) =>
          let e4 := { e3 with queuedTasks := [] }
          let fw2 := { framework with executors := insertA framework.executors executorId e4 }
          some ({ s with frameworks := insertA s.frameworks frameworkId fw2, stats := st2 },
                Effect.dispatch (IsoCall.resourcesChanged framework.id e2.id e2.resources)
                  :: Effect.send e2.pid (Msg.executorRegistered args) :: effs)

/-- Is the task state terminal, as tested by the live `statusUpdate` handler? -/
def terminal (st : TaskState) : Prop :=
  st = TaskState.FINISHED ∨ st = TaskState.FAILED ∨
  st = TaskState.KILLED ∨ st = TaskState.LOST

instance (st : TaskState) : Decidable (terminal st) := by
  unfold terminal
  infer_instance

/-- `Slave::statusUpdate` (lines 1015-1066), the live handler. -/
def Slave.statusUpdate (s : SlaveState) (update : StatusUpdate) :
    Option (SlaveState × List Effect) :=
  let status := update.status
  match Slave.getFramework s update.frameworkId with
  | none =>
    some ({ s with stats :=
              { s.stats with invalidStatusUpdates := s.stats.invalidStatusUpdates + 1 } },
          [])
  | some framework =>
    match Framework.getExecutorForTask framework status.taskId with
    | none =>
      some ({ s with stats :=
                { s.stats with invalidStatusUpdates := s.stats.invalidStatusUpdates + 1 } },
            [])
    | some (ekey, e) =>
      let e2 := Executor.updateTaskState e status.taskId status.state
      let step1 : Executor × List Effect :=
        if terminal status.state then
          let e3 := Executor.removeTask e2 status.taskId
          (e3, [Effect.dispatch (IsoCall.resourcesChanged framework.id e.id e3.resources)])
        else (e2, [])
      let fw2 :=
        { framework with
            executors := insertA framework.executors ekey step1.1,
            updates := insertA framework.updates status.taskId update }
      let st1 := Stats.bump s.stats status.state
      some ({ s with
                frameworks := insertA s.frameworks update.frameworkId fw2,
                stats := { st1 with validStatusUpdates := st1.validStatusUpdates + 1 } },
            step1.2 ++ [Effect.send s.master (Msg.statusUpdateMsg update true),
                        Effect.delayTimeout update])

/-- `Slave::executorMessage` (lines 1069-1094): only the framework is looked
up; the payload is forwarded to the framework endpoint. -/
def Slave.executorMessage (s : SlaveState)
    (slaveId frameworkId executorId payload : String) :
    Option (SlaveState × List Effect) :=
  match Slave.getFramework s frameworkId with
  | none => some (Slave.invalidFM s, [])
  | some framework =>
    some (Slave.validFM s,
          [Effect.send framework.pid
             (Msg.executorToFramework slaveId frameworkId executorId payload)])

/-- `Slave::ping` (lines 1097-1100). -/
def Slave.ping (s : SlaveState) (sender : String) : Option (SlaveState × List Effect) :=
  some (s, [Effect.send sender Msg.pong])

/-- `Slave::statusUpdateTimeout` (lines 1103-1120): resend the timer's update
if the framework still exists and any update for the task is unacknowledged. -/
def Slave.statusUpdateTimeout (s : SlaveState) (update : StatusUpdate) :
    Option (SlaveState × List Effect) :=
  match Slave.getFramework s update.frameworkId with
  | none => some (s, [])
  | some framework =>
    if containsA framework.updates update.status.taskId then
      some (s, [Effect.send s.master (Msg.statusUpdateMsg update true)])
    else some (s, [])

/-- `Slave::exited` (lines 1149-1158): only logs. -/
def Slave.exited (s : SlaveState) (sender : String) : Option (SlaveState × List Effect) :=
  some (s, [])

/-- `Slave::executorExited` (lines 1517-1553): report upstream, remove the
executor without killing, and remove the framework once it has no executors. -/
def Slave.executorExited (s : SlaveState) (frameworkId executorId : String)
    (status : Int) : Option (SlaveState × List Effect) :=
  match Slave.getFramework s frameworkId with
  | none => some (s, [])
  | some framework =>
    match Framework.getExecutor framework executorId with
    | none => some (s, [])
    | some e =>
      let msg := Effect.send s.master (Msg.exitedExecutor s.id frameworkId executorId status)
      let r := Slave.removeExecutor framework e false
      let s2 := { s with frameworks := insertA s.frameworks frameworkId r.1 }
      if r.1.executors = [] then
        let r2 := Slave.removeFramework s2 r.1 true
        some (r2.1, msg :: r.2 ++ r2.2)
      else some (s2, msg :: r.2)

/-- One inbound event: a protobuf message (with its out-of-band data such as
the sender endpoint, the clock value, or the freshly probed work directory),
a timer firing, or an isolation-module callback. -/
inductive Event
  | newMasterDetected (pid : String)
  | noMasterDetected
  | registered (slaveId : String)
  | reregistered (slaveId : String)
  | runTask (frameworkInfo : FrameworkInfo) (frameworkId pid : String)
      (task : TaskDescription) (directory : String)
  | killTask (frameworkId taskId : String) (now : Int)
  | killFramework (frameworkId : String)
  | schedulerMessage (slaveId frameworkId executorId payload : String)
  | updateFramework (frameworkId pid : String)
  | statusUpdateAcknowledgement (slaveId frameworkId taskId : String)
  | registerExecutor (frameworkId executorId sender : String)
  | statusUpdate (update : StatusUpdate)
  | executorMessage (slaveId frameworkId executorId payload : String)
  | ping (sender : String)
  | statusUpdateTimeout (update : StatusUpdate)
  | executorExited (frameworkId executorId : String) (status : Int)
  | exited (sender : String)
deriving DecidableEq

/-- The agent's serialized dispatch loop: one event, handled atomically. -/
def step (s : SlaveState) : Event → Option (SlaveState × List Effect)
  | Event.newMasterDetected pid => Slave.newMasterDetected s pid
  | Event.noMasterDetected => Slave.noMasterDetected s
  | Event.registered slaveId => Slave.registered s slaveId
  | Event.reregistered slaveId => Slave.reregistered s slaveId
  | Event.runTask finfo fid pid task dir => Slave.runTask s finfo fid pid task dir
  | Event.killTask fid tid now => Slave.killTask s fid tid now
  | Event.killFramework fid => Slave.killFramework s fid
  | Event.schedulerMessage sid fid eid payload =>
      Slave.schedulerMessage s sid fid eid payload
  | Event.updateFramework fid pid => Slave.updateFramework s fid pid
  | Event.statusUpdateAcknowledgement sid fid tid =>
      Slave.statusUpdateAcknowledgement s sid fid tid
  | Event.registerExecutor fid eid sender => Slave.registerExecutor s fid eid sender
  | Event.statusUpdate update => Slave.statusUpdate s update
  | Event.executorMessage sid fid eid payload =>
      Slave.executorMessage s sid fid eid payload
  | Event.ping sender => Slave.ping s sender
  | Event.statusUpdateTimeout update => Slave.statusUpdateTimeout s update
  | Event.executorExited fid eid status => Slave.executorExited s fid eid status
  | Event.exited sender => Slave.exited s sender

/-- The agent's state right after `initialize` / `operator()` startup: no
slave id, no master, no frameworks, all counters zero. -/
def initState (info : SlaveInfo) (resources : Resources) : SlaveState :=
  ⟨"", "", info, resources, [], Stats.zero⟩

/-- States the agent can actually be in between handler executions. -/
inductive Reachable : SlaveState → Prop
  | init (info : SlaveInfo) (resources : Resources) : Reachable (initState info resources)
  | next {s s' : SlaveState} {effs : List Effect} {ev : Event} :
      Reachable s → step s ev = some (s', effs) → Reachable s'

/-- Run a finite sequence of events, collecting all effects in order. -/
def steps (s : SlaveState) : List Event → Option (SlaveState × List Effect)
  | [] => some (s, [])
  | ev :: rest =>
    match step s ev with
    | none => none
    | some r =>
      match steps r.1 rest with
      | none => none
      | some r2 => some (r2.1, r.2 ++ r2.2)

/-- Does this effect dispatch `resourcesChanged` to the isolation module for
the executor identified by (frameworkId, executorId)? -/
def Effect.isRC (fid eid : String) : Effect → Bool
  | Effect.dispatch (IsoCall.resourcesChanged f e _) => f = fid && e = eid
  | _ => false

/-- The component-wise sum of the resources of the launched tasks. -/
def taskSum (l : List (String × Task)) (n : String) : Int :=
  l.foldr (fun p acc => Resources.eval p.2.resources n + acc) 0

/-- The ledger invariant: an executor's `resources` equals the component-wise
sum of its launched tasks' resources. -/
def ledgerOK (e : Executor) : Prop :=
  ∀ n, Resources.eval e.resources n = taskSum e.launchedTasks n

/-- The ledger invariant for every executor of every framework. -/
def stateLedgerOK (s : SlaveState) : Prop :=
  ∀ fp ∈ s.frameworks, ∀ ep ∈ fp.2.executors, ledgerOK ep.2

/-- Structural well-formedness of the object graph, mirroring what the C++
`hashmap`s and in-place object graph guarantee: map keys are unique, each
record is filed under its own id, and every framework still has at least one
executor (frameworks are created with an executor and reaped by
`executorExited` as soon as the last one goes). -/
def WF (s : SlaveState) : Prop :=
  (s.frameworks.map Prod.fst).Nodup ∧
  ∀ fp ∈ s.frameworks,
    fp.2.id = fp.1 ∧ fp.2.executors ≠ [] ∧
    (fp.2.executors.map Prod.fst).Nodup ∧
    ∀ ep ∈ fp.2.executors,
      ep.2.id = ep.1 ∧
      (ep.2.queuedTasks.map Prod.fst).Nodup ∧
      (ep.2.launchedTasks.map Prod.fst).Nodup

/-! ### Concrete fixture data (used by witnesses and counterexamples) -/

/-- A placeholder framework (never looked up successfully). -/
def noFramework : Framework := ⟨"", ⟨"", "", ⟨"", "", ""⟩⟩, "", [], []⟩

/-- A placeholder executor (never looked up successfully). -/
def noExecutor : Executor := ⟨"", ⟨"", "", ""⟩, "", "", "", [], [], []⟩

def demoEInfo : ExecutorInfo := ⟨"e1", "hdfs://x", "blob"⟩

def demoFInfo : FrameworkInfo := ⟨"fw", "user", demoEInfo⟩

def demoSInfo : SlaveInfo := ⟨"host", "host", [("cpus", 4), ("mem", 2048)]⟩

def demoTask : TaskDescription := ⟨"t", "t1", "S", [("cpus", 1)], some demoEInfo⟩

def demoS0 : SlaveState := initState demoSInfo [("cpus", 4), ("mem", 2048)]

/-- Total version of `step` for building concrete fixture states. -/
def demoStep (s : SlaveState) (ev : Event) : SlaveState × List Effect :=
  (step s ev).getD (s, [])

/-- After `RunTask(t1)` for unknown framework `f1`: framework and executor
created, `t1` queued. -/
def demoS1 : SlaveState :=
  (demoStep demoS0 (Event.runTask demoFInfo "f1" "sched" demoTask "dir")).1

def demoFw1 : Framework :=
  (Slave.getFramework demoS1 "f1").getD noFramework

def demoE1 : Executor :=
  (Framework.getExecutor demoFw1 "e1").getD noExecutor

/-- After `RegisterExecutor(f1, e1)` from endpoint `ex`: `t1` launched. -/
def demoS2 : SlaveState :=
  (demoStep demoS1 (Event.registerExecutor "f1" "e1" "ex")).1

def demoFw2 : Framework :=
  (Slave.getFramework demoS2 "f1").getD noFramework

def demoE2 : Executor :=
  (Framework.getExecutor demoFw2 "e1").getD noExecutor

def demoU : StatusUpdate := ⟨"f1", some "e1", "S", ⟨"t1", TaskState.RUNNING⟩, 3, 0⟩

/-- After a (non-terminal) `StatusUpdate` for `t1`: the update is stored,
unacknowledged, in the framework's `updates`. -/
def demoS3 : SlaveState := (demoStep demoS2 (Event.statusUpdate demoU)).1

def demoFw3 : Framework :=
  (Slave.getFramework demoS3 "f1").getD noFramework

def demoE3 : Executor :=
  (Framework.getExecutor demoFw3 "e1").getD noExecutor

/-- After `executorExited(f1, e1)`: the framework is dropped even though an
unacknowledged update is still stored. -/
def demoS4 : SlaveState :=
  (demoStep demoS3 (Event.executorExited "f1" "e1" 137)).1

def demoEffs1 : List Effect :=
  (demoStep demoS0 (Event.runTask demoFInfo "f1" "sched" demoTask "dir")).2

def demoEffs2 : List Effect :=
  (demoStep demoS1 (Event.registerExecutor "f1" "e1" "ex")).2

def demoEffs3 : List Effect := (demoStep demoS2 (Event.statusUpdate demoU)).2

def demoEffs4 : List Effect :=
  (demoStep demoS3 (Event.executorExited "f1" "e1" 137)).2

/-- The same agent state after the master has assigned slave id `S7`. -/
def demoS2r : SlaveState := (demoStep demoS2 (Event.registered "S7")).1

/-- Variant: `KillFramework(f1)` arriving at `demoS3` (update unacked). -/
def demoS4k : SlaveState := (demoStep demoS3 (Event.killFramework "f1")).1

def demoEffs4k : List Effect := (demoStep demoS3 (Event.killFramework "f1")).2

/-- A terminal status update for `t1`. -/
def demoUFin : StatusUpdate := ⟨"f1", some "e1", "S", ⟨"t1", TaskState.FINISHED⟩, 4, 0⟩

/-- After the terminal `FINISHED` update at `demoS2`: task removed, ledger
debited. -/
def demoS2f : SlaveState := (demoStep demoS2 (Event.statusUpdate demoUFin)).1

def demoEffs2f : List Effect := (demoStep demoS2 (Event.statusUpdate demoUFin)).2

def demoFw2f : Framework := (Slave.getFramework demoS2f "f1").getD noFramework

def demoE2f : Executor := (Framework.getExecutor demoFw2f "e1").getD noExecutor

/-- A hand-built fixture: executor `e1` created but with nothing queued or
launched yet, its framework `f1` registered with the agent. -/
def demoE0 : Executor := ⟨"e1", demoEInfo, "f1", "dir", "", [], [], []⟩

def demoFw0 : Framework := ⟨"f1", demoFInfo, "sched", [("e1", demoE0)], []⟩

def demoSW : SlaveState :=
  ⟨"S7", "M", demoSInfo, [("cpus", 4)], [("f1", demoFw0)], Stats.zero⟩

/-- A second task, `t2`, for the same executor `e1`. -/
def demoTask2 : TaskDescription := ⟨"t", "t2", "S", [("cpus", 1)], some demoEInfo⟩

/-- Executor `e1` with `t1` and `t2` queued (in that arrival order) and no
registered endpoint. -/
def demoE0q2 : Executor :=
  ⟨"e1", demoEInfo, "f1", "dir", "", [], [("t1", demoTask), ("t2", demoTask2)], []⟩

def demoFw0q2 : Framework := ⟨"f1", demoFInfo, "sched", [("e1", demoE0q2)], []⟩

def demoSW2 : SlaveState :=
  ⟨"S8", "M", demoSInfo, [("cpus", 4)], [("f1", demoFw0q2)], Stats.zero⟩

/-- Total version of `Slave.registerExecutorOrd` for concrete fixtures. -/
def demoRegOrd (ord : List (String × TaskDescription)) (s : SlaveState)
    (frameworkId executorId sender : String) : SlaveState × List Effect :=
  (Slave.registerExecutorOrd ord s frameworkId executorId sender).getD (s, [])

/-- A terminal status update for `t1` usable while `t1` is only queued. -/
def demoUK : StatusUpdate := ⟨"f1", some "e1", "S", ⟨"t1", TaskState.KILLED⟩, 7, 0⟩

/-! ## Association-list lemmas -/

theorem lookupA_insertA {β : Type} (l : List (String × β)) (k k' : String) (v : β) :
    lookupA (insertA l k v) k' = if k = k' then some v else lookupA l k' := by
  induction l with
  | nil => simp [insertA, lookupA]
  | cons p rest ih =>
    obtain ⟨pk, pv⟩ := p
    by_cases hpk : pk = k
    · subst hpk
      by_cases hk' : pk = k'
      · simp [insertA, lookupA, hk']
      · simp [insertA, lookupA, hk']
    · by_cases hk' : pk = k'
      · subst hk'
        have hkk' : ¬k = pk := fun h => hpk h.symm
        simp [insertA, lookupA, hpk, hkk']
      · simp [insertA, lookupA, hpk, hk', ih]

theorem insertA_of_lookupA_none {β : Type} (l : List (String × β)) (k : String) (v : β)
    (h : lookupA l k = none) : insertA l k v = l ++ [(k, v)] := by
  induction l with
  | nil => simp [insertA]
  | cons p rest ih =>
    obtain ⟨pk, pv⟩ := p
    simp only [lookupA] at h
    by_cases hpk : pk = k
    · simp [hpk] at h
    · simp only [insertA, if_neg hpk, List.cons_append, List.cons.injEq, true_and]
      exact ih (by simpa [hpk] using h)

theorem mem_insertA {β : Type} {l : List (String × β)} {k : String} {v : β}
    {p : String × β} (h : p ∈ insertA l k v) : p = (k, v) ∨ p ∈ l := by
  induction l with
  | nil =>
    simp only [insertA, List.mem_singleton] at h
    exact Or.inl h
  | cons q rest ih =>
    obtain ⟨qk, qv⟩ := q
    by_cases hqk : qk = k
    · simp only [insertA] at h
      rw [if_pos hqk] at h
      rcases List.mem_cons.1 h with h1 | h1
      · exact Or.inl h1
      · exact Or.inr (List.mem_cons_of_mem _ h1)
    · simp only [insertA] at h
      rw [if_neg hqk] at h
      rcases List.mem_cons.1 h with h1 | h1
      · exact Or.inr (List.mem_cons.2 (Or.inl h1))
      · rcases ih h1 with h2 | h2
        · exact Or.inl h2
        · exact Or.inr (List.mem_cons_of_mem _ h2)

theorem mem_eraseA {β : Type} {l : List (String × β)} {k : String}
    {p : String × β} (h : p ∈ eraseA l k) : p ∈ l := by
  induction l with
  | nil => simpa [eraseA] using h
  | cons q rest ih =>
    obtain ⟨qk, qv⟩ := q
    by_cases hqk : qk = k
    · simp only [eraseA, if_pos hqk] at h
      exact List.mem_cons_of_mem _ h
    · simp only [eraseA, if_neg hqk, List.mem_cons] at h
      rcases h with h | h
      · simp [h]
      · exact List.mem_cons_of_mem _ (ih h)

theorem lookupA_eraseA_ne {β : Type} (l : List (String × β)) {k k' : String}
    (h : k ≠ k') : lookupA (eraseA l k) k' = lookupA l k' := by
  induction l with
  | nil => simp [eraseA]
  | cons q rest ih =>
    obtain ⟨qk, qv⟩ := q
    by_cases hqk : qk = k
    · subst hqk
      simp [eraseA, lookupA, h]
    · simp [eraseA, hqk, lookupA]
      by_cases hqk' : qk = k'
      · simp [hqk']
      · simp [hqk', ih]

theorem mem_updateA {β : Type} {l : List (String × β)} {k : String} {f : β → β}
    {p : String × β} (h : p ∈ updateA l k f) :
    p ∈ l ∨ ∃ q ∈ l, q.1 = k ∧ p = (q.1, f q.2) := by
  induction l with
  | nil =>
    simp only [updateA, List.not_mem_nil] at h
  | cons q rest ih =>
    obtain ⟨qk, qv⟩ := q
    by_cases hqk : qk = k
    · simp only [updateA] at h
      rw [if_pos hqk] at h
      rcases List.mem_cons.1 h with h1 | h1
      · exact Or.inr ⟨(qk, qv), List.mem_cons_self _ _, hqk, h1⟩
      · exact Or.inl (List.mem_cons_of_mem _ h1)
    · simp only [updateA] at h
      rw [if_neg hqk] at h
      rcases List.mem_cons.1 h with h1 | h1
      · exact Or.inl (List.mem_cons.2 (Or.inl h1))
      · rcases ih h1 with h2 | ⟨q', hq', hk', hp'⟩
        · exact Or.inl (List.mem_cons_of_mem _ h2)
        · exact Or.inr ⟨q', List.mem_cons_of_mem _ hq', hk', hp'⟩

theorem insertA_ne_nil {β : Type} (l : List (String × β)) (k : String) (v : β) :
    insertA l k v ≠ [] := by
  cases l with
  | nil => simp [insertA]
  | cons q rest =>
    obtain ⟨qk, qv⟩ := q
    by_cases hqk : qk = k <;> simp [insertA, hqk]

/-! ## Resource-algebra lemmas -/

theorem Resources.eval_addOne (r : Resources) (n : String) (v : Int) (m : String) :
    Resources.eval (Resources.addOne r n v) m =
      Resources.eval r m + (if n = m then v else 0) := by
  induction r with
  | nil => simp [Resources.addOne, Resources.eval]
  | cons p rest ih =>
    obtain ⟨pk, pv⟩ := p
    by_cases hpk : pk = n
    · subst hpk
      simp only [Resources.addOne, if_pos rfl, Resources.eval]
      by_cases hm : pk = m
      · simp [hm]
        ring
      · simp [hm]
    · simp only [Resources.addOne, if_neg hpk, Resources.eval, ih]
      ring

theorem Resources.eval_subOne (r : Resources) (n : String) (v : Int) (m : String) :
    Resources.eval (Resources.subOne r n v) m =
      Resources.eval r m - (if n = m then v else 0) := by
  induction r with
  | nil => by_cases h : n = m <;> simp [Resources.subOne, Resources.eval, h]
  | cons p rest ih =>
    obtain ⟨pk, pv⟩ := p
    by_cases hpk : pk = n
    · subst hpk
      simp only [Resources.subOne, if_pos rfl, Resources.eval]
      by_cases hm : pk = m
      · simp [hm]
        ring
      · simp [hm]
    · simp only [Resources.subOne, if_neg hpk, Resources.eval, ih]
      ring

theorem Resources.eval_plusAll (r other : Resources) (m : String) :
    Resources.eval (Resources.plusAll r other) m =
      Resources.eval r m + Resources.eval other m := by
  induction other generalizing r with
  | nil => simp [Resources.plusAll, Resources.eval]
  | cons p rest ih =>
    obtain ⟨pk, pv⟩ := p
    show Resources.eval (Resources.plusAll (Resources.addOne r pk pv) rest) m = _
    rw [ih, Resources.eval_addOne]
    show _ = Resources.eval r m + ((if pk = m then pv else 0) + Resources.eval rest m)
    ring

theorem Resources.eval_minusAll (r other : Resources) (m : String) :
    Resources.eval (Resources.minusAll r other) m =
      Resources.eval r m - Resources.eval other m := by
  induction other generalizing r with
  | nil => simp [Resources.minusAll, Resources.eval]
  | cons p rest ih =>
    obtain ⟨pk, pv⟩ := p
    show Resources.eval (Resources.minusAll (Resources.subOne r pk pv) rest) m = _
    rw [ih, Resources.eval_subOne]
    show _ = Resources.eval r m - ((if pk = m then pv else 0) + Resources.eval rest m)
    ring

/-! ## More association-list lemmas -/

theorem lookupA_mem {β : Type} {l : List (String × β)} {k : String} {v : β}
    (h : lookupA l k = some v) : (k, v) ∈ l := by
  induction l with
  | nil => simp [lookupA] at h
  | cons q rest ih =>
    obtain ⟨qk, qv⟩ := q
    by_cases hqk : qk = k
    · subst hqk
      simp [lookupA] at h
      simp [h]
    · simp only [lookupA, if_neg hqk] at h
      exact List.mem_cons_of_mem _ (ih h)

theorem lookupA_append {β : Type} (l1 l2 : List (String × β)) (k : String) :
    lookupA (l1 ++ l2) k =
      match lookupA l1 k with
      | some v => some v
      | none => lookupA l2 k := by
  induction l1 with
  | nil => simp [lookupA]
  | cons q rest ih =>
    obtain ⟨qk, qv⟩ := q
    by_cases hqk : qk = k <;> simp [lookupA, hqk, ih]

theorem eraseA_of_lookupA_none {β : Type} {l : List (String × β)} {k : String}
    (h : lookupA l k = none) : eraseA l k = l := by
  induction l with
  | nil => simp [eraseA]
  | cons q rest ih =>
    obtain ⟨qk, qv⟩ := q
    simp only [lookupA] at h
    by_cases hqk : qk = k
    · simp [hqk] at h
    · simp only [eraseA, if_neg hqk, List.cons.injEq, true_and]
      exact ih (by simpa [hqk] using h)

/-! ## The executor resource ledger -/

theorem taskSum_append (l1 l2 : List (String × Task)) (n : String) :
    taskSum (l1 ++ l2) n = taskSum l1 n + taskSum l2 n := by
  induction l1 with
  | nil => simp [taskSum]
  | cons p rest ih =>
    show Resources.eval p.2.resources n + taskSum (rest ++ l2) n =
      Resources.eval p.2.resources n + taskSum rest n + taskSum l2 n
    rw [ih]
    ring

theorem taskSum_eraseA {l : List (String × Task)} {k : String} {t : Task}
    (h : lookupA l k = some t) (n : String) :
    taskSum (eraseA l k) n = taskSum l n - Resources.eval t.resources n := by
  induction l with
  | nil => simp [lookupA] at h
  | cons q rest ih =>
    obtain ⟨qk, qv⟩ := q
    by_cases hqk : qk = k
    · subst hqk
      simp [lookupA] at h
      subst h
      simp only [eraseA, eq_self_iff_true, if_true]
      show taskSum rest n = Resources.eval qv.resources n + taskSum rest n -
        Resources.eval qv.resources n
      ring
    · simp only [lookupA, if_neg hqk] at h
      simp only [eraseA, if_neg hqk]
      show Resources.eval qv.resources n + taskSum (eraseA rest k) n =
        Resources.eval qv.resources n + taskSum rest n - Resources.eval t.resources n
      rw [ih h]
      ring

theorem taskSum_updateA_resources_fixed {l : List (String × Task)} {k : String}
    {f : Task → Task} (hf : ∀ t, (f t).resources = t.resources) (n : String) :
    taskSum (updateA l k f) n = taskSum l n := by
  induction l with
  | nil => simp [updateA]
  | cons q rest ih =>
    obtain ⟨qk, qv⟩ := q
    by_cases hqk : qk = k
    · simp only [updateA, if_pos hqk, taskSum, List.foldr, hf]
    · simp only [updateA, if_neg hqk, taskSum, List.foldr]
      simp only [taskSum] at ih
      rw [ih]

/-- `Executor::addTask` preserves the ledger and appends the new task. -/
theorem addTask_spec {e e' : Executor} {task : TaskDescription}
    (h : Executor.addTask e task = some e') :
    lookupA e.launchedTasks task.taskId = none ∧
    e' = { e with
            launchedTasks := e.launchedTasks ++
              [(task.taskId, taskOf e.frameworkId e.id task)],
            resources := Resources.plusAll e.resources task.resources } := by
  unfold Executor.addTask at h
  by_cases hc : containsA e.launchedTasks task.taskId
  · simp [hc] at h
  · have hnone : lookupA e.launchedTasks task.taskId = none := by
      unfold containsA at hc
      cases hl : lookupA e.launchedTasks task.taskId with
      | none => rfl
      | some v => rw [hl] at hc; simp at hc
    refine ⟨hnone, ?_⟩
    simp only [hc, if_neg, Bool.false_eq_true, not_false_iff, ite_false,
      Option.some.injEq] at h
    rw [← h, insertA_of_lookupA_none _ _ _ hnone]

theorem addTask_ledger {e e' : Executor} {task : TaskDescription}
    (h : Executor.addTask e task = some e') (hok : ledgerOK e) : ledgerOK e' := by
  obtain ⟨hnone, rfl⟩ := addTask_spec h
  intro n
  simp only [taskSum_append, Resources.eval_plusAll, hok n]
  simp [taskSum, taskOf]

/-- What `Executor::removeTask` does when the task is launched. -/
theorem removeTask_eq_some {e : Executor} {taskId : String} {t : Task}
    (h : lookupA e.launchedTasks taskId = some t) :
    Executor.removeTask e taskId =
      { e with
          queuedTasks := eraseA e.queuedTasks taskId,
          resources := Resources.minusAll e.resources t.resources,
          launchedTasks := eraseA e.launchedTasks taskId } := by
  unfold Executor.removeTask
  simp [h]

/-- What `Executor::removeTask` does when the task is not launched. -/
theorem removeTask_eq_none {e : Executor} {taskId : String}
    (h : lookupA e.launchedTasks taskId = none) :
    Executor.removeTask e taskId =
      { e with queuedTasks := eraseA e.queuedTasks taskId } := by
  unfold Executor.removeTask
  simp [h]

theorem removeTask_ledger {e : Executor} (taskId : String) (hok : ledgerOK e) :
    ledgerOK (Executor.removeTask e taskId) := by
  cases hl : lookupA e.launchedTasks taskId with
  | none =>
    rw [removeTask_eq_none hl]
    intro n
    exact hok n
  | some t =>
    rw [removeTask_eq_some hl]
    intro n
    show Resources.eval (Resources.minusAll e.resources t.resources) n =
      taskSum (eraseA e.launchedTasks taskId) n
    rw [Resources.eval_minusAll, taskSum_eraseA hl, hok n]

theorem updateTaskState_ledger {e : Executor} (taskId : String) (st : TaskState)
    (hok : ledgerOK e) : ledgerOK (Executor.updateTaskState e taskId st) := by
  intro n
  show Resources.eval e.resources n =
    taskSum (updateA e.launchedTasks taskId (fun t => { t with state := st })) n
  rw [taskSum_updateA_resources_fixed (f := fun t => { t with state := st })
    (fun t => rfl), hok n]

/-! ## The registerExecutor drain loop -/

/-- Full characterization of a successful run of the drain loop: it emits one
`RunTask` per queued task in queue order, appends the corresponding launched
tasks in order, changes no other executor field, and preserves the ledger. -/
theorem runQueuedTasks_some (finfo : FrameworkInfo) (fid fpid epid : String)
    (q : List (String × TaskDescription)) :
    ∀ (e : Executor) (st : Stats) (e3 : Executor) (st2 : Stats) (effs : List Effect),
      Slave.runQueuedTasks finfo fid fpid epid q e st = some (e3, st2, effs) →
      effs = q.map (fun p => Effect.send epid (Msg.runTaskMsg finfo fid fpid p.2)) ∧
      e3.id = e.id ∧ e3.info = e.info ∧ e3.frameworkId = e.frameworkId ∧
      e3.directory = e.directory ∧ e3.pid = e.pid ∧
      e3.queuedTasks = e.queuedTasks ∧
      e3.launchedTasks = e.launchedTasks ++
        q.map (fun p => (p.2.taskId, taskOf e.frameworkId e.id p.2)) ∧
      (ledgerOK e → ledgerOK e3) := by
  induction q with
  | nil =>
    intro e st e3 st2 effs h
    simp only [Slave.runQueuedTasks, Option.some.injEq, Prod.mk.injEq] at h
    obtain ⟨h1, h2, h3⟩ := h
    subst h1
    subst h3
    simp
  | cons p rest ih =>
    intro e st e3 st2 effs h
    obtain ⟨k, task⟩ := p
    simp only [Slave.runQueuedTasks] at h
    split at h
    · exact absurd h (by simp)
    next e2 ha =>
      split at h
      · exact absurd h (by simp)
      next e3' st2' effs' hr =>
        simp only [Option.some.injEq, Prod.mk.injEq] at h
        obtain ⟨he3, hst2, heffs⟩ := h
        subst he3
        subst hst2
        subst heffs
        obtain ⟨hnone, he2⟩ := addTask_spec ha
        obtain ⟨ih1, ih2, ih3, ih4, ih5, ih6, ih7, ih8, ih9⟩ :=
          ih e2 (Stats.bump st TaskState.STARTING) e3' st2' effs' hr
        subst he2
        refine ⟨by simp [ih1], by simpa using ih2, by simpa using ih3,
          by simpa using ih4, by simpa using ih5, by simpa using ih6,
          by simpa using ih7, ?_, ?_⟩
        · rw [ih8]
          simp [List.append_assoc]
        · intro hok
          exact ih9 (addTask_ledger ha hok)

/-- The drain loop succeeds whenever the queued task ids are distinct and
none of them has already been launched. -/
theorem runQueuedTasks_total (finfo : FrameworkInfo) (fid fpid epid : String)
    (q : List (String × TaskDescription)) :
    ∀ (e : Executor) (st : Stats),
      (q.map (fun p => p.2.taskId)).Nodup →
      (∀ p ∈ q, lookupA e.launchedTasks p.2.taskId = none) →
      ∃ r, Slave.runQueuedTasks finfo fid fpid epid q e st = some r := by
  induction q with
  | nil =>
    intro e st _ _
    exact ⟨(e, st, []), rfl⟩
  | cons p rest ih =>
    intro e st hnodup hfresh
    obtain ⟨k, task⟩ := p
    have hhead : lookupA e.launchedTasks task.taskId = none :=
      hfresh (k, task) (List.mem_cons_self _ _)
    have hnc : containsA e.launchedTasks task.taskId = false := by
      simp [containsA, hhead]
    have ha : Executor.addTask e task =
        some { e with
                launchedTasks := insertA e.launchedTasks task.taskId
                  (taskOf e.frameworkId e.id task),
                resources := Resources.plusAll e.resources task.resources } := by
      unfold Executor.addTask
      simp [hnc]
    rw [insertA_of_lookupA_none _ _ _ hhead] at ha
    simp only [List.map_cons, List.nodup_cons] at hnodup
    obtain ⟨hnotin, hnodup'⟩ := hnodup
    have hfresh' : ∀ p ∈ rest,
        lookupA (e.launchedTasks ++ [(task.taskId, taskOf e.frameworkId e.id task)])
          p.2.taskId = none := by
      intro p hp
      rw [lookupA_append]
      rw [hfresh p (List.mem_cons_of_mem _ hp)]
      have hne : task.taskId ≠ p.2.taskId := by
        intro hcontra
        exact hnotin (hcontra ▸ List.mem_map_of_mem (fun p => p.2.taskId) hp)
      simp [lookupA, hne]
    obtain ⟨r, hr⟩ := ih { e with
        launchedTasks := e.launchedTasks ++
          [(task.taskId, taskOf e.frameworkId e.id task)],
        resources := Resources.plusAll e.resources task.resources }
      (Stats.bump st TaskState.STARTING) hnodup' hfresh'
    obtain ⟨e3x, st2x, effsx⟩ := r
    refine ⟨(e3x, st2x, Effect.send epid (Msg.runTaskMsg finfo fid fpid task) :: effsx), ?_⟩
    simp only [Slave.runQueuedTasks, ha, hr]

/-! ## Key-uniqueness helper lemmas -/

theorem lookupA_eq_none_of_not_mem {β : Type} {l : List (String × β)} {k : String}
    (h : k ∉ l.map Prod.fst) : lookupA l k = none := by
  induction l with
  | nil => rfl
  | cons q rest ih =>
    obtain ⟨qk, qv⟩ := q
    simp only [List.map_cons, List.mem_cons] at h
    push_neg at h
    obtain ⟨h1, h2⟩ := h
    have hqk : ¬qk = k := fun hc => h1 hc.symm
    simp only [lookupA, if_neg hqk]
    exact ih h2

theorem lookupA_of_mem_nodup {β : Type} {l : List (String × β)} {k : String} {v : β}
    (hm : (k, v) ∈ l) (hnd : (l.map Prod.fst).Nodup) : lookupA l k = some v := by
  induction l with
  | nil => simp at hm
  | cons q rest ih =>
    obtain ⟨qk, qv⟩ := q
    simp only [List.map_cons, List.nodup_cons] at hnd
    obtain ⟨hq, hnd'⟩ := hnd
    rcases List.mem_cons.1 hm with h1 | h1
    · obtain ⟨hk, hv⟩ := Prod.mk.injEq .. ▸ h1
      simp_all [lookupA]
    · have hne : ¬qk = k := by
        intro hc
        subst hc
        exact hq (List.mem_map_of_mem Prod.fst h1)
      simp only [lookupA, if_neg hne]
      exact ih h1 hnd'

theorem lookupA_eraseA_self_of_nodup {β : Type} {l : List (String × β)} {k : String}
    (hnd : (l.map Prod.fst).Nodup) : lookupA (eraseA l k) k = none := by
  induction l with
  | nil => rfl
  | cons q rest ih =>
    obtain ⟨qk, qv⟩ := q
    simp only [List.map_cons, List.nodup_cons] at hnd
    obtain ⟨hq, hnd'⟩ := hnd
    by_cases hqk : qk = k
    · subst hqk
      simp only [eraseA, if_pos rfl]
      exact lookupA_eq_none_of_not_mem hq
    · simp only [eraseA, if_neg hqk, lookupA, if_neg hqk]
      exact ih hnd'

theorem updateA_of_lookupA_none {β : Type} {l : List (String × β)} {k : String}
    {f : β → β} (h : lookupA l k = none) : updateA l k f = l := by
  induction l with
  | nil => rfl
  | cons q rest ih =>
    obtain ⟨qk, qv⟩ := q
    simp only [lookupA] at h
    by_cases hqk : qk = k
    · simp [hqk] at h
    · simp only [updateA, if_neg hqk, List.cons.injEq, true_and]
      exact ih (by simpa [hqk] using h)

theorem updateA_keys {β : Type} (l : List (String × β)) (k : String) (f : β → β) :
    (updateA l k f).map Prod.fst = l.map Prod.fst := by
  induction l with
  | nil => rfl
  | cons q rest ih =>
    obtain ⟨qk, qv⟩ := q
    by_cases hqk : qk = k <;> simp [updateA, hqk, ih]

theorem containsA_insertA_of {β : Type} {l : List (String × β)} {k k' : String}
    {v : β} (h : containsA l k = true) : containsA (insertA l k' v) k = true := by
  unfold containsA at *
  rw [lookupA_insertA]
  by_cases hk : k' = k
  · simp [hk]
  · simpa [hk] using h

theorem containsA_eraseA_ne {β : Type} {l : List (String × β)} {k k' : String}
    (hne : k' ≠ k) (h : containsA l k = true) : containsA (eraseA l k') k = true := by
  unfold containsA at *
  rwa [lookupA_eraseA_ne _ hne]

theorem find?_eq_lookupA_of_nodup {β : Type} {l : List (String × β)}
    {p : String × β → Bool} {k : String} {v : β}
    (h : l.find? p = some (k, v)) (hnd : (l.map Prod.fst).Nodup) :
    lookupA l k = some v :=
  lookupA_of_mem_nodup (List.mem_of_find?_eq_some h) hnd

theorem insertA_insertA {β : Type} (l : List (String × β)) (k : String) (v w : β) :
    insertA (insertA l k v) k w = insertA l k w := by
  induction l with
  | nil => simp [insertA]
  | cons q rest ih =>
    obtain ⟨qk, qv⟩ := q
    by_cases hqk : qk = k
    · simp [insertA, hqk]
    · simp [insertA, hqk, ih]

/-! ## Claim C5: KillTask case analysis -/

/-- C5: `KillTask(frameworkId, taskId)` behaves by cases: unknown framework or
unknown task fabricate a non-reliable `TASK_LOST` to the master and touch
nothing else; a known task on an unregistered executor is removed locally,
isolation is told the new resources, and a non-reliable `TASK_KILLED` is
fabricated; a registered executor just gets the `KillTask` forwarded. In the
first three cases the exact result shows no retry timer is armed and nothing
is stored in `framework.updates`. -/
theorem c5_killTask_cases (s : SlaveState) (frameworkId taskId : String) (now : Int) :
    (Slave.getFramework s frameworkId = none →
      Slave.killTask s frameworkId taskId now =
        some (s, [Effect.send s.master (Msg.statusUpdateMsg
          ⟨frameworkId, none, s.id, ⟨taskId, TaskState.LOST⟩, now, -1⟩ false)])) ∧
    (∀ fw, Slave.getFramework s frameworkId = some fw →
      Framework.getExecutorForTask fw taskId = none →
      Slave.killTask s frameworkId taskId now =
        some (s, [Effect.send s.master (Msg.statusUpdateMsg
          ⟨fw.id, none, s.id, ⟨taskId, TaskState.LOST⟩, now, -1⟩ false)])) ∧
    (∀ fw ekey e, Slave.getFramework s frameworkId = some fw →
      Framework.getExecutorForTask fw taskId = some (ekey, e) →
      e.pid = "" →
      Slave.killTask s frameworkId taskId now =
        some ({ s with
            frameworks :=
              insertA s.frameworks frameworkId
                ({ fw with
                    executors :=
                      insertA fw.executors ekey (Executor.removeTask e taskId) }) },
          [Effect.dispatch (IsoCall.resourcesChanged fw.id e.id
             (Executor.removeTask e taskId).resources),
           Effect.send s.master (Msg.statusUpdateMsg
             ⟨fw.id, some e.id, s.id, ⟨taskId, TaskState.KILLED⟩, now, 0⟩ false)])) ∧
    (∀ fw ekey e, Slave.getFramework s frameworkId = some fw →
      Framework.getExecutorForTask fw taskId = some (ekey, e) →
      e.pid ≠ "" →
      Slave.killTask s frameworkId taskId now =
        some (s, [Effect.send e.pid (Msg.killTaskMsg frameworkId taskId)])) := by
  refine ⟨?_, ?_, ?_, ?_⟩
  · intro h1
    simp [Slave.killTask, h1]
  · intro fw h1 h2
    simp [Slave.killTask, h1, h2]
  · intro fw ekey e h1 h2 h3
    simp [Slave.killTask, h1, h2, h3]
  · intro fw ekey e h1 h2 h3
    simp [Slave.killTask, h1, h2, h3]

/-- Witness for C5: the unregistered-executor case at the concrete fixture
state (task `t1` queued on the not-yet-registered executor `e1`). -/
theorem c5_witness :
    Slave.killTask demoS1 "f1" "t1" 5 =
      some ({ demoS1 with
          frameworks :=
            insertA demoS1.frameworks "f1"
              ({ demoFw1 with
                  executors :=
                    insertA demoFw1.executors "e1"
                      (Executor.removeTask demoE1 "t1") }) },
        [Effect.dispatch (IsoCall.resourcesChanged demoFw1.id demoE1.id
           (Executor.removeTask demoE1 "t1").resources),
         Effect.send demoS1.master (Msg.statusUpdateMsg
           ⟨demoFw1.id, some demoE1.id, demoS1.id, ⟨"t1", TaskState.KILLED⟩, 5, 0⟩
           false)]) :=
  (c5_killTask_cases demoS1 "f1" "t1" 5).2.2.1 demoFw1 "e1" demoE1 (by rfl) (by rfl)
    (by rfl)

/-! ## Claim C8: RegisterExecutor guards -/

/-- C8: `RegisterExecutor` replies `Shutdown` to the sender and changes no
state when the framework is unknown, the executor id is unknown, or the
executor already has a non-empty endpoint; only otherwise is the sender
endpoint recorded as the executor's pid. -/
theorem c8_registerExecutor_guards (s : SlaveState)
    (frameworkId executorId sender : String) :
    (Slave.getFramework s frameworkId = none →
      Slave.registerExecutor s frameworkId executorId sender =
        some (s, [Effect.send sender Msg.shutdownMsg])) ∧
    (∀ fw, Slave.getFramework s frameworkId = some fw →
      Framework.getExecutor fw executorId = none →
      Slave.registerExecutor s frameworkId executorId sender =
        some (s, [Effect.send sender Msg.shutdownMsg])) ∧
    (∀ fw e, Slave.getFramework s frameworkId = some fw →
      Framework.getExecutor fw executorId = some e → e.pid ≠ "" →
      Slave.registerExecutor s frameworkId executorId sender =
        some (s, [Effect.send sender Msg.shutdownMsg])) ∧
    (∀ fw e s' effs, Slave.getFramework s frameworkId = some fw →
      Framework.getExecutor fw executorId = some e → e.pid = "" →
      Slave.registerExecutor s frameworkId executorId sender = some (s', effs) →
      ∃ fw' e', Slave.getFramework s' frameworkId = some fw' ∧
        Framework.getExecutor fw' executorId = some e' ∧ e'.pid = sender) := by
  refine ⟨?_, ?_, ?_, ?_⟩
  · intro h1
    simp [Slave.registerExecutor, h1]
  · intro fw h1 h2
    simp [Slave.registerExecutor, h1, h2]
  · intro fw e h1 h2 h3
    simp [Slave.registerExecutor, h1, h2, h3]
  · intro fw e s' effs h1 h2 h3 h4
    simp only [Slave.registerExecutor, h1, h2, h3, ne_eq, not_true_eq_false,
      if_false, ite_false] at h4
    cases hr : Slave.runQueuedTasks fw.info fw.id fw.pid sender e.queuedTasks
        { e with pid := sender } s.stats with
    | none =>
      rw [hr] at h4
      exact absurd h4 (by simp)
    | some r =>
      obtain ⟨e3, st2, effs0⟩ := r
      rw [hr] at h4
      simp only [Option.some.injEq, Prod.mk.injEq] at h4
      obtain ⟨hs', heffs⟩ := h4
      obtain ⟨_, _, _, _, _, hpid, _, _, _⟩ :=
        runQueuedTasks_some fw.info fw.id fw.pid sender e.queuedTasks
          { e with pid := sender } s.stats e3 st2 effs0 hr
      subst hs'
      refine ⟨{ fw with
          executors :=
            insertA fw.executors executorId ({ e3 with queuedTasks := [] }) },
        { e3 with queuedTasks := [] }, ?_, ?_, ?_⟩
      · simp [Slave.getFramework, lookupA_insertA]
      · simp [Framework.getExecutor, lookupA_insertA]
      · simpa using hpid

/-- Witness for C8: at the fixture state the executor `e1` is unregistered,
so registering from endpoint `ex` records that endpoint as its pid. -/
theorem c8_witness :
    ∃ fw' e', Slave.getFramework demoS2 "f1" = some fw' ∧
      Framework.getExecutor fw' "e1" = some e' ∧ e'.pid = "ex" :=
  (c8_registerExecutor_guards demoS1 "f1" "e1" "ex").2.2.2 demoFw1 demoE1 demoS2
    demoEffs2 (by rfl) (by rfl) (by rfl) (by rfl)

/-! ## Claim C7: data-message forwarding (corrected) -/

/-- Counterexample to C7 as stated: an `ExecutorToFramework` payload whose
executor id is unknown to the framework is nevertheless forwarded to the
framework endpoint and counted valid — `Slave::executorMessage` never looks
at the executor. The claim predicted a drop and an invalid count. -/
theorem c7_counterexample :
    Framework.getExecutor demoFw1 "eX" = none ∧
    Slave.executorMessage demoS1 "mySlave" "f1" "eX" "bytes" =
      some (Slave.validFM demoS1,
        [Effect.send demoFw1.pid
           (Msg.executorToFramework "mySlave" "f1" "eX" "bytes")]) :=
  ⟨rfl, rfl⟩

/-- C7 (amended): `FrameworkToExecutor` payloads are dropped and counted
invalid when the framework is unknown, the executor is unknown, or the
executor has not registered, and otherwise forwarded unchanged to the
executor endpoint and counted valid. `ExecutorToFramework` payloads are
dropped and counted invalid only when the framework is unknown; otherwise
they are forwarded unchanged to the framework endpoint and counted valid,
with no check of the executor. -/
theorem c7_message_forwarding (s : SlaveState)
    (slaveId frameworkId executorId payload : String) :
    (Slave.getFramework s frameworkId = none →
      Slave.schedulerMessage s slaveId frameworkId executorId payload =
        some (Slave.invalidFM s, [])) ∧
    (∀ fw, Slave.getFramework s frameworkId = some fw →
      Framework.getExecutor fw executorId = none →
      Slave.schedulerMessage s slaveId frameworkId executorId payload =
        some (Slave.invalidFM s, [])) ∧
    (∀ fw e, Slave.getFramework s frameworkId = some fw →
      Framework.getExecutor fw executorId = some e → e.pid = "" →
      Slave.schedulerMessage s slaveId frameworkId executorId payload =
        some (Slave.invalidFM s, [])) ∧
    (∀ fw e, Slave.getFramework s frameworkId = some fw →
      Framework.getExecutor fw executorId = some e → e.pid ≠ "" →
      Slave.schedulerMessage s slaveId frameworkId executorId payload =
        some (Slave.validFM s,
          [Effect.send e.pid
             (Msg.frameworkToExecutor slaveId frameworkId executorId payload)])) ∧
    (Slave.getFramework s frameworkId = none →
      Slave.executorMessage s slaveId frameworkId executorId payload =
        some (Slave.invalidFM s, [])) ∧
    (∀ fw, Slave.getFramework s frameworkId = some fw →
      Slave.executorMessage s slaveId frameworkId executorId payload =
        some (Slave.validFM s,
          [Effect.send fw.pid
             (Msg.executorToFramework slaveId frameworkId executorId payload)])) := by
  refine ⟨?_, ?_, ?_, ?_, ?_, ?_⟩
  · intro h1
    simp [Slave.schedulerMessage, h1]
  · intro fw h1 h2
    simp [Slave.schedulerMessage, h1, h2]
  · intro fw e h1 h2 h3
    simp [Slave.schedulerMessage, h1, h2, h3]
  · intro fw e h1 h2 h3
    simp [Slave.schedulerMessage, h1, h2, h3]
  · intro h1
    simp [Slave.executorMessage, h1]
  · intro fw h1
    simp [Slave.executorMessage, h1]

/-- Witness for C7 (amended): at the fixture state with a registered
executor, both directions forward; with an unknown executor id, the
scheduler-to-executor direction drops. -/
theorem c7_witness :
    Slave.schedulerMessage demoS2 "mySlave" "f1" "e1" "bytes" =
      some (Slave.validFM demoS2,
        [Effect.send demoE2.pid
           (Msg.frameworkToExecutor "mySlave" "f1" "e1" "bytes")]) ∧
    Slave.schedulerMessage demoS2 "mySlave" "f1" "eX" "bytes" =
      some (Slave.invalidFM demoS2, []) :=
  ⟨(c7_message_forwarding demoS2 "mySlave" "f1" "e1" "bytes").2.2.2.1 demoFw2 demoE2
      (by rfl) (by rfl) (by decide),
   (c7_message_forwarding demoS2 "mySlave" "f1" "eX" "bytes").2.1 demoFw2
      (by rfl) (by rfl)⟩

/-! ## Claims C6 and C10: the statusUpdate handler -/

/-- After `Executor::removeTask`, the task is no longer launched
(given unique launched-task keys). -/
theorem removeTask_launched_none {e : Executor} {tid : String}
    (hnd : (e.launchedTasks.map Prod.fst).Nodup) :
    lookupA (Executor.removeTask e tid).launchedTasks tid = none := by
  cases hl : lookupA e.launchedTasks tid with
  | none =>
    rw [removeTask_eq_none hl]
    exact hl
  | some t =>
    rw [removeTask_eq_some hl]
    exact lookupA_eraseA_self_of_nodup hnd

/-- After `Executor::removeTask`, the task is no longer queued
(given unique queued-task keys). -/
theorem removeTask_queued_none {e : Executor} {tid : String}
    (hnd : (e.queuedTasks.map Prod.fst).Nodup) :
    lookupA (Executor.removeTask e tid).queuedTasks tid = none := by
  cases hl : lookupA e.launchedTasks tid with
  | none =>
    rw [removeTask_eq_none hl]
    exact lookupA_eraseA_self_of_nodup hnd
  | some t =>
    rw [removeTask_eq_some hl]
    exact lookupA_eraseA_self_of_nodup hnd

/-- C6: a terminal `StatusUpdate` for a known framework and executor removes
the task from the executor — the `resourcesChanged` dispatch with the debited
ledger comes first in the effect list — before the reliable `StatusUpdate`
message to the master. -/
theorem c6_terminal_removal (s : SlaveState) (u : StatusUpdate) (fw : Framework)
    (ekey : String) (e : Executor)
    (hfw : Slave.getFramework s u.frameworkId = some fw)
    (he : Framework.getExecutorForTask fw u.status.taskId = some (ekey, e))
    (hterm : terminal u.status.state)
    (hndl : (e.launchedTasks.map Prod.fst).Nodup)
    (hndq : (e.queuedTasks.map Prod.fst).Nodup) :
    ∃ e3 : Executor,
      e3 = Executor.removeTask
          (Executor.updateTaskState e u.status.taskId u.status.state)
          u.status.taskId ∧
      lookupA e3.launchedTasks u.status.taskId = none ∧
      lookupA e3.queuedTasks u.status.taskId = none ∧
      Slave.statusUpdate s u =
        some ({ s with
            frameworks :=
              insertA s.frameworks u.frameworkId
                ({ fw with
                    executors := insertA fw.executors ekey e3,
                    updates := insertA fw.updates u.status.taskId u }),
            stats :=
              { Stats.bump s.stats u.status.state with
                  validStatusUpdates :=
                    (Stats.bump s.stats u.status.state).validStatusUpdates + 1 } },
          [Effect.dispatch (IsoCall.resourcesChanged fw.id e.id e3.resources),
           Effect.send s.master (Msg.statusUpdateMsg u true),
           Effect.delayTimeout u]) := by
  refine ⟨_, rfl, ?_, ?_, ?_⟩
  · apply removeTask_launched_none
    show ((updateA e.launchedTasks u.status.taskId _).map Prod.fst).Nodup
    rwa [updateA_keys]
  · apply removeTask_queued_none
    exact hndq
  · simp only [Slave.statusUpdate, hfw, he, hterm, if_true]
    simp

/-- Witness for C6: a `FINISHED` update for the launched task `t1` at the
fixture state. -/
theorem c6_witness :
    ∃ e3 : Executor,
      e3 = Executor.removeTask
          (Executor.updateTaskState demoE2 demoUFin.status.taskId
            demoUFin.status.state) demoUFin.status.taskId ∧
      lookupA e3.launchedTasks demoUFin.status.taskId = none ∧
      lookupA e3.queuedTasks demoUFin.status.taskId = none ∧
      Slave.statusUpdate demoS2 demoUFin =
        some ({ demoS2 with
            frameworks :=
              insertA demoS2.frameworks demoUFin.frameworkId
                ({ demoFw2 with
                    executors := insertA demoFw2.executors "e1" e3,
                    updates := insertA demoFw2.updates demoUFin.status.taskId
                      demoUFin }),
            stats :=
              { Stats.bump demoS2.stats demoUFin.status.state with
                  validStatusUpdates :=
                    (Stats.bump demoS2.stats
                      demoUFin.status.state).validStatusUpdates + 1 } },
          [Effect.dispatch (IsoCall.resourcesChanged demoFw2.id demoE2.id
             e3.resources),
           Effect.send demoS2.master (Msg.statusUpdateMsg demoUFin true),
           Effect.delayTimeout demoUFin]) :=
  c6_terminal_removal demoS2 demoUFin demoFw2 "e1" demoE2 (by rfl) (by rfl)
    (Or.inl rfl) (by decide) (by decide)

/-- C10: a `StatusUpdate` for a task that is only queued (never launched) on
one of the framework's executors is treated as valid: no launched task record
changes state, the update is forwarded reliably, stored in
`framework.updates` and counted valid, and a terminal state erases the task
from `queuedTasks`. -/
theorem c10_queued_only_update (s : SlaveState) (u : StatusUpdate)
    (fw : Framework) (ekey : String) (e : Executor)
    (hfw : Slave.getFramework s u.frameworkId = some fw)
    (he : Framework.getExecutorForTask fw u.status.taskId = some (ekey, e))
    (hnl : lookupA e.launchedTasks u.status.taskId = none) :
    ∃ eAfter : Executor,
      eAfter = (if terminal u.status.state then
                  { e with queuedTasks := eraseA e.queuedTasks u.status.taskId }
                else e) ∧
      eAfter.launchedTasks = e.launchedTasks ∧
      eAfter.resources = e.resources ∧
      (terminal u.status.state → (e.queuedTasks.map Prod.fst).Nodup →
        lookupA eAfter.queuedTasks u.status.taskId = none) ∧
      Slave.statusUpdate s u =
        some ({ s with
            frameworks :=
              insertA s.frameworks u.frameworkId
                ({ fw with
                    executors := insertA fw.executors ekey eAfter,
                    updates := insertA fw.updates u.status.taskId u }),
            stats :=
              { Stats.bump s.stats u.status.state with
                  validStatusUpdates :=
                    (Stats.bump s.stats u.status.state).validStatusUpdates + 1 } },
          (if terminal u.status.state then
             [Effect.dispatch (IsoCall.resourcesChanged fw.id e.id e.resources)]
           else []) ++
            [Effect.send s.master (Msg.statusUpdateMsg u true),
             Effect.delayTimeout u]) := by
  have hupd : Executor.updateTaskState e u.status.taskId u.status.state = e := by
    unfold Executor.updateTaskState
    rw [updateA_of_lookupA_none hnl]
  have hrem : Executor.removeTask e u.status.taskId =
      { e with queuedTasks := eraseA e.queuedTasks u.status.taskId } :=
    removeTask_eq_none hnl
  by_cases hterm : terminal u.status.state
  · refine ⟨{ e with queuedTasks := eraseA e.queuedTasks u.status.taskId },
      by simp [hterm], rfl, rfl, ?_, ?_⟩
    · intro _ hnd
      exact lookupA_eraseA_self_of_nodup hnd
    · simp only [Slave.statusUpdate, hfw, he, hupd, hrem, hterm, if_true]
  · refine ⟨e, by simp [hterm], rfl, rfl, fun ht => absurd ht hterm, ?_⟩
    simp only [Slave.statusUpdate, hfw, he, hupd, hterm, if_false]

/-- Witness for C10: a terminal `KILLED` update for `t1` while it is still
only queued (executor not yet registered) at the fixture state. -/
theorem c10_witness :
    ∃ eAfter : Executor,
      eAfter = (if terminal demoUK.status.state then
                  { demoE1 with
                      queuedTasks := eraseA demoE1.queuedTasks
                        demoUK.status.taskId }
                else demoE1) ∧
      eAfter.launchedTasks = demoE1.launchedTasks ∧
      eAfter.resources = demoE1.resources ∧
      (terminal demoUK.status.state → (demoE1.queuedTasks.map Prod.fst).Nodup →
        lookupA eAfter.queuedTasks demoUK.status.taskId = none) ∧
      Slave.statusUpdate demoS1 demoUK =
        some ({ demoS1 with
            frameworks :=
              insertA demoS1.frameworks demoUK.frameworkId
                ({ demoFw1 with
                    executors := insertA demoFw1.executors "e1" eAfter,
                    updates := insertA demoFw1.updates demoUK.status.taskId
                      demoUK }),
            stats :=
              { Stats.bump demoS1.stats demoUK.status.state with
                  validStatusUpdates :=
                    (Stats.bump demoS1.stats
                      demoUK.status.state).validStatusUpdates + 1 } },
          (if terminal demoUK.status.state then
             [Effect.dispatch (IsoCall.resourcesChanged demoFw1.id demoE1.id
                demoE1.resources)]
           else []) ++
            [Effect.send demoS1.master (Msg.statusUpdateMsg demoUK true),
             Effect.delayTimeout demoUK]) :=
  c10_queued_only_update demoS1 demoUK demoFw1 "e1" demoE1 (by rfl) (by rfl) (by rfl)

/-! ## Claim C9: re-registration reports the launched tasks -/

/-- C9: `NewMasterDetected` at an agent that already has a slave id sends the
new master exactly one `ReregisterSlave` whose task list is (as a multiset)
the collection of all launched tasks across every executor of every
framework. -/
theorem c9_reregister_tasks (s : SlaveState) (pid : String) (hid : s.id ≠ "") :
    ∃ tasks : List Task,
      Slave.newMasterDetected s pid =
        some ({ s with master := pid },
          [Effect.link pid,
           Effect.send pid (Msg.reregisterSlave s.id s.info tasks)]) ∧
      Multiset.ofList tasks =
        Multiset.ofList
          (s.frameworks.flatMap fun fp =>
            fp.2.executors.flatMap fun ep =>
              ep.2.launchedTasks.map fun tp => tp.2) := by
  refine ⟨_, ?_, rfl⟩
  simp [Slave.newMasterDetected, hid]

/-- Witness for C9 at the fixture state that has slave id `S7` and one
launched task. -/
theorem c9_witness :
    ∃ tasks : List Task,
      Slave.newMasterDetected demoS2r "master2" =
        some ({ demoS2r with master := "master2" },
          [Effect.link "master2",
           Effect.send "master2" (Msg.reregisterSlave demoS2r.id demoS2r.info
             tasks)]) ∧
      Multiset.ofList tasks =
        Multiset.ofList
          (demoS2r.frameworks.flatMap fun fp =>
            fp.2.executors.flatMap fun ep =>
              ep.2.launchedTasks.map fun tp => tp.2) :=
  c9_reregister_tasks demoS2r "master2" (by decide)

/-! ## Claim C4: at-least-once delivery (corrected) -/

/-- Inserting never breaks key uniqueness: an existing key is overwritten in
place, a fresh key is appended. -/
theorem keys_insertA_nodup {β : Type} {l : List (String × β)} (k : String) (v : β)
    (h : (l.map Prod.fst).Nodup) : ((insertA l k v).map Prod.fst).Nodup := by
  induction l with
  | nil => simp [insertA]
  | cons q rest ih =>
    obtain ⟨qk, qv⟩ := q
    simp only [List.map_cons, List.nodup_cons] at h
    obtain ⟨hq, hrest⟩ := h
    by_cases hqk : qk = k
    · subst hqk
      have hins : insertA ((qk, qv) :: rest) qk v = (qk, v) :: rest := by
        simp [insertA]
      rw [hins]
      simp only [List.map_cons, List.nodup_cons]
      exact ⟨hq, hrest⟩
    · simp only [insertA]
      rw [if_neg hqk]
      simp only [List.map_cons, List.nodup_cons]
      refine ⟨?_, ih hrest⟩
      intro hmem
      rcases List.mem_map.1 hmem with ⟨p, hp, hfst⟩
      rcases mem_insertA hp with h1 | h1
      · subst h1
        simp only at hfst
        exact hqk hfst.symm
      · exact hq (hfst ▸ List.mem_map_of_mem Prod.fst h1)

/-- Inversion of `Framework::createExecutor` on success: only the executor
map changes, and the new executor is fresh, unregistered and empty. -/
theorem createExecutor_updates {fw fw2 : Framework} {einfo : ExecutorInfo}
    {dir : String} {e : Executor}
    (h : Framework.createExecutor fw einfo dir = some (fw2, e)) :
    fw2.updates = fw.updates ∧ fw2.id = fw.id ∧ fw2.info = fw.info ∧
    fw2.pid = fw.pid ∧
    fw2.executors = insertA fw.executors einfo.executorId e ∧
    containsA fw.executors einfo.executorId = false ∧
    e = ⟨einfo.executorId, einfo, fw.id, dir, "", [], [], []⟩ := by
  unfold Framework.createExecutor at h
  by_cases hc : containsA fw.executors einfo.executorId = true
  · simp [hc] at h
  · simp only [Bool.not_eq_true] at hc
    simp only [hc, Bool.false_eq_true, if_false, ite_false, Option.some.injEq,
      Prod.mk.injEq] at h
    obtain ⟨h1, h2⟩ := h
    subst h2
    exact ⟨by rw [← h1], by rw [← h1], by rw [← h1], by rw [← h1],
      by rw [← h1], hc, rfl⟩

/-- Helper: replacing (or adding) one framework preserves "some framework
with this update" for every other lookup, and for the same lookup whenever
the replacement keeps the update. -/
theorem getFramework_insert_preserves {s : SlaveState} {fid0 fid tid : String}
    {fw fw0' : Framework}
    (hfw : lookupA s.frameworks fid = some fw)
    (hc : containsA fw.updates tid = true)
    (hkeep : fid0 = fid → containsA fw0'.updates tid = true) :
    ∃ fw2, lookupA (insertA s.frameworks fid0 fw0') fid = some fw2 ∧
      containsA fw2.updates tid = true := by
  by_cases h : fid0 = fid
  · subst h
    exact ⟨fw0', by rw [lookupA_insertA]; simp, hkeep rfl⟩
  · exact ⟨fw, by rw [lookupA_insertA]; simp [h, hfw], hc⟩

/-- Counterexample to C4 as stated: at the reachable fixture state the update
for `t1` is stored unacknowledged, yet a `KillFramework` — not a
`StatusUpdateAcknowledgement` — destroys the framework record and with it
`framework.updates[t1]`. -/
theorem c4_counterexample :
    containsA demoFw3.updates "t1" = true ∧
    step demoS3 (Event.killFramework "f1") = some (demoS4k, demoEffs4k) ∧
    Slave.getFramework demoS4k "f1" = none :=
  ⟨rfl, rfl, rfl⟩

/-- C4 (amended): as long as the framework record itself survives, no event
other than a `StatusUpdateAcknowledgement` for exactly (framework, task)
removes the stored update — `framework.updates[taskId]` stays populated; and
when `statusUpdateTimeout(u)` fires while the framework still has an
unacknowledged update for the task, the agent re-sends to the master exactly
the stored update `u`, with the reliable flag set. -/
theorem c4_at_least_once (s : SlaveState)
    (hnd : (s.frameworks.map Prod.fst).Nodup) :
    (∀ (ev : Event) (s2 : SlaveState) (effs : List Effect) (fid tid : String)
       (fw : Framework),
      step s ev = some (s2, effs) →
      Slave.getFramework s fid = some fw →
      containsA fw.updates tid = true →
      (∀ sid, ev ≠ Event.statusUpdateAcknowledgement sid fid tid) →
      Slave.getFramework s2 fid = none ∨
        ∃ fw2, Slave.getFramework s2 fid = some fw2 ∧
          containsA fw2.updates tid = true) ∧
    (∀ (u : StatusUpdate) (fw : Framework),
      Slave.getFramework s u.frameworkId = some fw →
      containsA fw.updates u.status.taskId = true →
      Slave.statusUpdateTimeout s u =
        some (s, [Effect.send s.master (Msg.statusUpdateMsg u true)])) := by
  constructor
  · intro ev s2 effs fid tid fw h hfw hc hnotack
    cases ev with
    | newMasterDetected pid0 =>
      simp only [step, Slave.newMasterDetected] at h
      split at h <;>
        (simp only [Option.some.injEq, Prod.mk.injEq] at h
         obtain ⟨h1, -⟩ := h
         subst h1
         exact Or.inr ⟨fw, hfw, hc⟩)
    | noMasterDetected =>
      simp only [step, Slave.noMasterDetected, Option.some.injEq,
        Prod.mk.injEq] at h
      obtain ⟨h1, -⟩ := h
      subst h1
      exact Or.inr ⟨fw, hfw, hc⟩
    | registered slaveId0 =>
      simp only [step, Slave.registered, Option.some.injEq, Prod.mk.injEq] at h
      obtain ⟨h1, -⟩ := h
      subst h1
      exact Or.inr ⟨fw, hfw, hc⟩
    | reregistered slaveId0 =>
      simp only [step, Slave.reregistered] at h
      split at h
      · simp only [Option.some.injEq, Prod.mk.injEq] at h
        obtain ⟨h1, -⟩ := h
        subst h1
        exact Or.inr ⟨fw, hfw, hc⟩
      · exact absurd h (by simp)
    | runTask finfo0 fid0 pid0 task0 dir0 =>
      simp only [step, Slave.runTask] at h
      have hkeep : fid0 = fid →
          (match Slave.getFramework s fid0 with
            | some f => f
            | none => (⟨fid0, finfo0, pid0, [], []⟩ : Framework)) = fw := by
        intro heq
        subst heq
        rw [hfw]
      split at h
      next e he =>
        split at h
        · simp only [Option.some.injEq, Prod.mk.injEq] at h
          obtain ⟨h1, -⟩ := h
          subst h1
          exact Or.inr (getFramework_insert_preserves hfw hc
            (fun heq => by rw [hkeep heq]; exact hc))
        · split at h
          · exact absurd h (by simp)
          next e2 ha =>
            simp only [Option.some.injEq, Prod.mk.injEq] at h
            obtain ⟨h1, -⟩ := h
            subst h1
            exact Or.inr (getFramework_insert_preserves hfw hc
              (fun heq => by rw [hkeep heq]; exact hc))
      next he =>
        split at h
        · exact absurd h (by simp)
        next fw2 e2 hcreate =>
          simp only [Option.some.injEq, Prod.mk.injEq] at h
          obtain ⟨h1, -⟩ := h
          subst h1
          refine Or.inr (getFramework_insert_preserves hfw hc (fun heq => ?_))
          obtain ⟨hupd, -, -, -, -, -, -⟩ := createExecutor_updates hcreate
          show containsA _ tid = true
          rw [hupd, hkeep heq]
          exact hc
    | killTask fid0 tid0 now0 =>
      simp only [step, Slave.killTask] at h
      split at h
      · simp only [Option.some.injEq, Prod.mk.injEq] at h
        obtain ⟨h1, -⟩ := h
        subst h1
        exact Or.inr ⟨fw, hfw, hc⟩
      next framework hlook =>
        split at h
        · simp only [Option.some.injEq, Prod.mk.injEq] at h
          obtain ⟨h1, -⟩ := h
          subst h1
          exact Or.inr ⟨fw, hfw, hc⟩
        next ekey e hfind =>
          split at h
          · simp only [Option.some.injEq, Prod.mk.injEq] at h
            obtain ⟨h1, -⟩ := h
            subst h1
            refine Or.inr (getFramework_insert_preserves hfw hc (fun heq => ?_))
            have : framework = fw := by
              subst heq
              rw [hfw] at hlook
              exact (Option.some.injEq .. ▸ hlook).symm
            subst this
            exact hc
          · simp only [Option.some.injEq, Prod.mk.injEq] at h
            obtain ⟨h1, -⟩ := h
            subst h1
            exact Or.inr ⟨fw, hfw, hc⟩
    | killFramework fid0 =>
      simp only [step, Slave.killFramework] at h
      split at h
      · simp only [Option.some.injEq, Prod.mk.injEq] at h
        obtain ⟨h1, -⟩ := h
        subst h1
        exact Or.inr ⟨fw, hfw, hc⟩
      next framework hlook =>
        simp only [Slave.removeFramework, Option.some.injEq, Prod.mk.injEq] at h
        obtain ⟨h1, -⟩ := h
        subst h1
        by_cases hid : framework.id = fid
        · left
          show lookupA (eraseA s.frameworks framework.id) fid = none
          rw [hid]
          exact lookupA_eraseA_self_of_nodup hnd
        · right
          refine ⟨fw, ?_, hc⟩
          show lookupA (eraseA s.frameworks framework.id) fid = some fw
          rw [lookupA_eraseA_ne _ hid]
          exact hfw
    | schedulerMessage sid0 fid0 eid0 payload0 =>
      simp only [step, Slave.schedulerMessage] at h
      split at h
      · simp only [Option.some.injEq, Prod.mk.injEq] at h
        obtain ⟨h1, -⟩ := h
        subst h1
        exact Or.inr ⟨fw, hfw, hc⟩
      next framework hlook =>
        split at h
        · simp only [Option.some.injEq, Prod.mk.injEq] at h
          obtain ⟨h1, -⟩ := h
          subst h1
          exact Or.inr ⟨fw, hfw, hc⟩
        next e he =>
          split at h <;>
            (simp only [Option.some.injEq, Prod.mk.injEq] at h
             obtain ⟨h1, -⟩ := h
             subst h1
             exact Or.inr ⟨fw, hfw, hc⟩)
    | updateFramework fid0 pid0 =>
      simp only [step, Slave.updateFramework] at h
      split at h
      · simp only [Option.some.injEq, Prod.mk.injEq] at h
        obtain ⟨h1, -⟩ := h
        subst h1
        exact Or.inr ⟨fw, hfw, hc⟩
      next framework hlook =>
        simp only [Option.some.injEq, Prod.mk.injEq] at h
        obtain ⟨h1, -⟩ := h
        subst h1
        refine Or.inr (getFramework_insert_preserves hfw hc (fun heq => ?_))
        have : framework = fw := by
          subst heq
          rw [hfw] at hlook
          exact (Option.some.injEq .. ▸ hlook).symm
        subst this
        exact hc
    | statusUpdateAcknowledgement sid0 fid0 tid0 =>
      simp only [step, Slave.statusUpdateAcknowledgement] at h
      split at h
      · simp only [Option.some.injEq, Prod.mk.injEq] at h
        obtain ⟨h1, -⟩ := h
        subst h1
        exact Or.inr ⟨fw, hfw, hc⟩
      next framework hlook =>
        split at h
        · simp only [Option.some.injEq, Prod.mk.injEq] at h
          obtain ⟨h1, -⟩ := h
          subst h1
          refine Or.inr (getFramework_insert_preserves hfw hc (fun heq => ?_))
          have hfweq : framework = fw := by
            subst heq
            rw [hfw] at hlook
            exact (Option.some.injEq .. ▸ hlook).symm
          subst hfweq
          have htid : tid0 ≠ tid := by
            intro hcontra
            subst hcontra
            subst heq
            exact hnotack sid0 rfl
          exact containsA_eraseA_ne htid hc
        · simp only [Option.some.injEq, Prod.mk.injEq] at h
          obtain ⟨h1, -⟩ := h
          subst h1
          exact Or.inr ⟨fw, hfw, hc⟩
    | registerExecutor fid0 eid0 sender0 =>
      simp only [step, Slave.registerExecutor] at h
      split at h
      · simp only [Option.some.injEq, Prod.mk.injEq] at h
        obtain ⟨h1, -⟩ := h
        subst h1
        exact Or.inr ⟨fw, hfw, hc⟩
      next framework hlook =>
        split at h
        · simp only [Option.some.injEq, Prod.mk.injEq] at h
          obtain ⟨h1, -⟩ := h
          subst h1
          exact Or.inr ⟨fw, hfw, hc⟩
        next e he =>
          split at h
          · simp only [Option.some.injEq, Prod.mk.injEq] at h
            obtain ⟨h1, -⟩ := h
            subst h1
            exact Or.inr ⟨fw, hfw, hc⟩
          · split at h
            · exact absurd h (by simp)
            next e3 st2 effs0 hr =>
              simp only [Option.some.injEq, Prod.mk.injEq] at h
              obtain ⟨h1, -⟩ := h
              subst h1
              refine Or.inr (getFramework_insert_preserves hfw hc (fun heq => ?_))
              have : framework = fw := by
                subst heq
                rw [hfw] at hlook
                exact (Option.some.injEq .. ▸ hlook).symm
              subst this
              exact hc
    | statusUpdate u =>
      simp only [step, Slave.statusUpdate] at h
      split at h
      · simp only [Option.some.injEq, Prod.mk.injEq] at h
        obtain ⟨h1, -⟩ := h
        subst h1
        exact Or.inr ⟨fw, hfw, hc⟩
      next framework hlook =>
        split at h
        · simp only [Option.some.injEq, Prod.mk.injEq] at h
          obtain ⟨h1, -⟩ := h
          subst h1
          exact Or.inr ⟨fw, hfw, hc⟩
        next ekey e hfind =>
          simp only [Option.some.injEq, Prod.mk.injEq] at h
          obtain ⟨h1, -⟩ := h
          subst h1
          refine Or.inr (getFramework_insert_preserves hfw hc (fun heq => ?_))
          have : framework = fw := by
            subst heq
            rw [hfw] at hlook
            exact (Option.some.injEq .. ▸ hlook).symm
          subst this
          exact containsA_insertA_of hc
    | executorMessage sid0 fid0 eid0 payload0 =>
      simp only [step, Slave.executorMessage] at h
      split at h <;>
        (simp only [Option.some.injEq, Prod.mk.injEq] at h
         obtain ⟨h1, -⟩ := h
         subst h1
         exact Or.inr ⟨fw, hfw, hc⟩)
    | ping sender0 =>
      simp only [step, Slave.ping, Option.some.injEq, Prod.mk.injEq] at h
      obtain ⟨h1, -⟩ := h
      subst h1
      exact Or.inr ⟨fw, hfw, hc⟩
    | statusUpdateTimeout u =>
      simp only [step, Slave.statusUpdateTimeout] at h
      split at h
      · simp only [Option.some.injEq, Prod.mk.injEq] at h
        obtain ⟨h1, -⟩ := h
        subst h1
        exact Or.inr ⟨fw, hfw, hc⟩
      · split at h <;>
          (simp only [Option.some.injEq, Prod.mk.injEq] at h
           obtain ⟨h1, -⟩ := h
           subst h1
           exact Or.inr ⟨fw, hfw, hc⟩)
    | executorExited fid0 eid0 status0 =>
      simp only [step, Slave.executorExited] at h
      split at h
      · simp only [Option.some.injEq, Prod.mk.injEq] at h
        obtain ⟨h1, -⟩ := h
        subst h1
        exact Or.inr ⟨fw, hfw, hc⟩
      next framework hlook =>
        split at h
        · simp only [Option.some.injEq, Prod.mk.injEq] at h
          obtain ⟨h1, -⟩ := h
          subst h1
          exact Or.inr ⟨fw, hfw, hc⟩
        next e he =>
          have hupdeq : (Slave.removeExecutor framework e false).1.updates =
              framework.updates := rfl
          split at h
          · simp only [Slave.removeFramework, Option.some.injEq,
              Prod.mk.injEq] at h
            obtain ⟨h1, -⟩ := h
            subst h1
            by_cases hid : (Slave.removeExecutor framework e false).1.id = fid
            · left
              show lookupA (eraseA (insertA s.frameworks fid0 _) _) fid = none
              rw [hid]
              exact lookupA_eraseA_self_of_nodup
                (keys_insertA_nodup fid0 _ hnd)
            · right
              show ∃ fw2,
                lookupA (eraseA (insertA s.frameworks fid0 _)
                  (Slave.removeExecutor framework e false).1.id) fid = some fw2 ∧
                containsA fw2.updates tid = true
              rw [lookupA_eraseA_ne _ hid, lookupA_insertA]
              by_cases hf0 : fid0 = fid
              · refine ⟨(Slave.removeExecutor framework e false).1, by simp [hf0], ?_⟩
                rw [hupdeq]
                have : framework = fw := by
                  subst hf0
                  rw [hfw] at hlook
                  exact (Option.some.injEq .. ▸ hlook).symm
                subst this
                exact hc
              · refine ⟨fw, ?_, hc⟩
                simp only [hf0, if_false, ite_false]
                exact hfw
          · simp only [Option.some.injEq, Prod.mk.injEq] at h
            obtain ⟨h1, -⟩ := h
            subst h1
            refine Or.inr (getFramework_insert_preserves hfw hc (fun heq => ?_))
            rw [hupdeq]
            have : framework = fw := by
              subst heq
              rw [hfw] at hlook
              exact (Option.some.injEq .. ▸ hlook).symm
            subst this
            exact hc
    | exited sender0 =>
      simp only [step, Slave.exited, Option.some.injEq, Prod.mk.injEq] at h
      obtain ⟨h1, -⟩ := h
      subst h1
      exact Or.inr ⟨fw, hfw, hc⟩
  · intro u fw hfw hc
    simp [Slave.statusUpdateTimeout, hfw, hc]

/-- Erasing the key just written removes exactly the written entry. -/
theorem eraseA_insertA {β : Type} (l : List (String × β)) (k : String) (v : β) :
    eraseA (insertA l k v) k = eraseA l k := by
  induction l with
  | nil => simp [insertA, eraseA]
  | cons q rest ih =>
    obtain ⟨qk, qv⟩ := q
    by_cases hqk : qk = k
    · subst hqk
      have hins : insertA ((qk, qv) :: rest) qk v = (qk, v) :: rest := by
        simp [insertA]
      rw [hins]
      simp [eraseA]
    · simp only [insertA]
      rw [if_neg hqk]
      simp only [eraseA]
      rw [if_neg hqk, if_neg hqk, ih]

/-- Witness for C4 (amended): at the fixture state with the `t1` update
stored, a `ping` leaves the update populated, and a firing timeout re-sends
exactly the stored update, reliably. -/
theorem c4_witness :
    (Slave.getFramework demoS3 "f1" = none ∨
      ∃ fw2, Slave.getFramework demoS3 "f1" = some fw2 ∧
        containsA fw2.updates "t1" = true) ∧
    Slave.statusUpdateTimeout demoS3 demoU =
      some (demoS3, [Effect.send demoS3.master (Msg.statusUpdateMsg demoU true)]) :=
  ⟨(c4_at_least_once demoS3 (by decide)).1 (Event.ping "px") demoS3
      [Effect.send "px" Msg.pong] "f1" "t1" demoFw3 (by rfl) (by rfl) (by rfl)
      (fun sid => by simp),
   (c4_at_least_once demoS3 (by decide)).2 demoU demoFw3 (by rfl) (by rfl)⟩

/-! ## Claim C3: framework retention (corrected) -/

/-- Replacing or adding a framework that is filed under its own id and has
executors preserves the structural invariant. -/
theorem fwInv_insert {s : SlaveState} {fid0 : String} {fw' : Framework}
    (hinv : ∀ fp ∈ s.frameworks, fp.2.id = fp.1 ∧ fp.2.executors ≠ [])
    (hid : fw'.id = fid0) (hne : fw'.executors ≠ []) :
    ∀ fp ∈ insertA s.frameworks fid0 fw', fp.2.id = fp.1 ∧ fp.2.executors ≠ [] := by
  intro fp hfp
  rcases mem_insertA hfp with h1 | h1
  · subst h1
    exact ⟨hid, hne⟩
  · exact hinv fp h1

/-- Every handler preserves the structural invariant: frameworks are filed
under their own ids and never retained with an empty executor map. -/
theorem c3_inv_step {s s2 : SlaveState} {effs : List Effect} {ev : Event}
    (hinv : ∀ fp ∈ s.frameworks, fp.2.id = fp.1 ∧ fp.2.executors ≠ [])
    (h : step s ev = some (s2, effs)) :
    ∀ fp ∈ s2.frameworks, fp.2.id = fp.1 ∧ fp.2.executors ≠ [] := by
  cases ev with
  | newMasterDetected pid0 =>
    simp only [step, Slave.newMasterDetected] at h
    split at h <;>
      (simp only [Option.some.injEq, Prod.mk.injEq] at h
       obtain ⟨h1, -⟩ := h
       subst h1
       exact hinv)
  | noMasterDetected =>
    simp only [step, Slave.noMasterDetected, Option.some.injEq, Prod.mk.injEq] at h
    obtain ⟨h1, -⟩ := h
    subst h1
    exact hinv
  | registered slaveId0 =>
    simp only [step, Slave.registered, Option.some.injEq, Prod.mk.injEq] at h
    obtain ⟨h1, -⟩ := h
    subst h1
    exact hinv
  | reregistered slaveId0 =>
    simp only [step, Slave.reregistered] at h
    split at h
    · simp only [Option.some.injEq, Prod.mk.injEq] at h
      obtain ⟨h1, -⟩ := h
      subst h1
      exact hinv
    · exact absurd h (by simp)
  | runTask finfo0 fid0 pid0 task0 dir0 =>
    simp only [step, Slave.runTask] at h
    have hfid : (match Slave.getFramework s fid0 with
        | some f => f
        | none => (⟨fid0, finfo0, pid0, [], []⟩ : Framework)).id = fid0 := by
      cases hlook : Slave.getFramework s fid0 with
      | none => rfl
      | some f =>
        have hf : lookupA s.frameworks fid0 = some f := hlook
        exact (hinv _ (lookupA_mem hf)).1
    split at h
    next e he =>
      split at h
      · simp only [Option.some.injEq, Prod.mk.injEq] at h
        obtain ⟨h1, -⟩ := h
        subst h1
        exact fwInv_insert hinv hfid (insertA_ne_nil _ _ _)
      · split at h
        · exact absurd h (by simp)
        next e2 ha =>
          simp only [Option.some.injEq, Prod.mk.injEq] at h
          obtain ⟨h1, -⟩ := h
          subst h1
          exact fwInv_insert hinv hfid (insertA_ne_nil _ _ _)
    next he =>
      split at h
      · exact absurd h (by simp)
      next fw2 e2 hcreate =>
        simp only [Option.some.injEq, Prod.mk.injEq] at h
        obtain ⟨h1, -⟩ := h
        subst h1
        obtain ⟨-, hfwid, -, -, -, -, -⟩ := createExecutor_updates hcreate
        exact fwInv_insert hinv (by rw [hfwid]; exact hfid) (insertA_ne_nil _ _ _)
  | killTask fid0 tid0 now0 =>
    simp only [step, Slave.killTask] at h
    split at h
    · simp only [Option.some.injEq, Prod.mk.injEq] at h
      obtain ⟨h1, -⟩ := h
      subst h1
      exact hinv
    next framework hlook =>
      have hf : lookupA s.frameworks fid0 = some framework := hlook
      split at h
      · simp only [Option.some.injEq, Prod.mk.injEq] at h
        obtain ⟨h1, -⟩ := h
        subst h1
        exact hinv
      next ekey e hfind =>
        split at h <;>
          (simp only [Option.some.injEq, Prod.mk.injEq] at h
           obtain ⟨h1, -⟩ := h
           subst h1)
        · exact fwInv_insert hinv ((hinv _ (lookupA_mem hf)).1)
            (insertA_ne_nil _ _ _)
        · exact hinv
  | killFramework fid0 =>
    simp only [step, Slave.killFramework] at h
    split at h
    · simp only [Option.some.injEq, Prod.mk.injEq] at h
      obtain ⟨h1, -⟩ := h
      subst h1
      exact hinv
    next framework hlook =>
      simp only [Slave.removeFramework, Option.some.injEq, Prod.mk.injEq] at h
      obtain ⟨h1, -⟩ := h
      subst h1
      intro fp hfp
      exact hinv fp (mem_eraseA hfp)
  | schedulerMessage sid0 fid0 eid0 payload0 =>
    simp only [step, Slave.schedulerMessage] at h
    split at h
    · simp only [Option.some.injEq, Prod.mk.injEq] at h
      obtain ⟨h1, -⟩ := h
      subst h1
      exact hinv
    next framework hlook =>
      split at h
      · simp only [Option.some.injEq, Prod.mk.injEq] at h
        obtain ⟨h1, -⟩ := h
        subst h1
        exact hinv
      next e he =>
        split at h <;>
          (simp only [Option.some.injEq, Prod.mk.injEq] at h
           obtain ⟨h1, -⟩ := h
           subst h1
           exact hinv)
  | updateFramework fid0 pid0 =>
    simp only [step, Slave.updateFramework] at h
    split at h
    · simp only [Option.some.injEq, Prod.mk.injEq] at h
      obtain ⟨h1, -⟩ := h
      subst h1
      exact hinv
    next framework hlook =>
      have hf : lookupA s.frameworks fid0 = some framework := hlook
      simp only [Option.some.injEq, Prod.mk.injEq] at h
      obtain ⟨h1, -⟩ := h
      subst h1
      exact fwInv_insert hinv ((hinv _ (lookupA_mem hf)).1)
        ((hinv _ (lookupA_mem hf)).2)
  | statusUpdateAcknowledgement sid0 fid0 tid0 =>
    simp only [step, Slave.statusUpdateAcknowledgement] at h
    split at h
    · simp only [Option.some.injEq, Prod.mk.injEq] at h
      obtain ⟨h1, -⟩ := h
      subst h1
      exact hinv
    next framework hlook =>
      have hf : lookupA s.frameworks fid0 = some framework := hlook
      split at h <;>
        (simp only [Option.some.injEq, Prod.mk.injEq] at h
         obtain ⟨h1, -⟩ := h
         subst h1)
      · exact fwInv_insert hinv ((hinv _ (lookupA_mem hf)).1)
          ((hinv _ (lookupA_mem hf)).2)
      · exact hinv
  | registerExecutor fid0 eid0 sender0 =>
    simp only [step, Slave.registerExecutor] at h
    split at h
    · simp only [Option.some.injEq, Prod.mk.injEq] at h
      obtain ⟨h1, -⟩ := h
      subst h1
      exact hinv
    next framework hlook =>
      have hf : lookupA s.frameworks fid0 = some framework := hlook
      split at h
      · simp only [Option.some.injEq, Prod.mk.injEq] at h
        obtain ⟨h1, -⟩ := h
        subst h1
        exact hinv
      next e he =>
        split at h
        · simp only [Option.some.injEq, Prod.mk.injEq] at h
          obtain ⟨h1, -⟩ := h
          subst h1
          exact hinv
        · split at h
          · exact absurd h (by simp)
          next e3 st2 effs0 hr =>
            simp only [Option.some.injEq, Prod.mk.injEq] at h
            obtain ⟨h1, -⟩ := h
            subst h1
            exact fwInv_insert hinv ((hinv _ (lookupA_mem hf)).1)
              (insertA_ne_nil _ _ _)
  | statusUpdate u =>
    simp only [step, Slave.statusUpdate] at h
    split at h
    · simp only [Option.some.injEq, Prod.mk.injEq] at h
      obtain ⟨h1, -⟩ := h
      subst h1
      exact hinv
    next framework hlook =>
      have hf : lookupA s.frameworks u.frameworkId = some framework := hlook
      split at h
      · simp only [Option.some.injEq, Prod.mk.injEq] at h
        obtain ⟨h1, -⟩ := h
        subst h1
        exact hinv
      next ekey e hfind =>
        simp only [Option.some.injEq, Prod.mk.injEq] at h
        obtain ⟨h1, -⟩ := h
        subst h1
        exact fwInv_insert hinv ((hinv _ (lookupA_mem hf)).1)
          (insertA_ne_nil _ _ _)
  | executorMessage sid0 fid0 eid0 payload0 =>
    simp only [step, Slave.executorMessage] at h
    split at h <;>
      (simp only [Option.some.injEq, Prod.mk.injEq] at h
       obtain ⟨h1, -⟩ := h
       subst h1
       exact hinv)
  | ping sender0 =>
    simp only [step, Slave.ping, Option.some.injEq, Prod.mk.injEq] at h
    obtain ⟨h1, -⟩ := h
    subst h1
    exact hinv
  | statusUpdateTimeout u =>
    simp only [step, Slave.statusUpdateTimeout] at h
    split at h
    · simp only [Option.some.injEq, Prod.mk.injEq] at h
      obtain ⟨h1, -⟩ := h
      subst h1
      exact hinv
    · split at h <;>
        (simp only [Option.some.injEq, Prod.mk.injEq] at h
         obtain ⟨h1, -⟩ := h
         subst h1
         exact hinv)
  | executorExited fid0 eid0 status0 =>
    simp only [step, Slave.executorExited] at h
    split at h
    · simp only [Option.some.injEq, Prod.mk.injEq] at h
      obtain ⟨h1, -⟩ := h
      subst h1
      exact hinv
    next framework hlook =>
      have hf : lookupA s.frameworks fid0 = some framework := hlook
      split at h
      · simp only [Option.some.injEq, Prod.mk.injEq] at h
        obtain ⟨h1, -⟩ := h
        subst h1
        exact hinv
      next e he =>
        have hrid : (Slave.removeExecutor framework e false).1.id = fid0 := by
          have h0 : (Slave.removeExecutor framework e false).1.id = framework.id := rfl
          rw [h0]
          exact (hinv _ (lookupA_mem hf)).1
        split at h
        next hemp =>
          simp only [Slave.removeFramework, Option.some.injEq, Prod.mk.injEq] at h
          obtain ⟨h1, -⟩ := h
          subst h1
          intro fp hfp
          show fp.2.id = fp.1 ∧ fp.2.executors ≠ []
          have hfp2 : fp ∈ eraseA
              (insertA s.frameworks fid0 (Slave.removeExecutor framework e false).1)
              (Slave.removeExecutor framework e false).1.id := hfp
          rw [hrid, eraseA_insertA] at hfp2
          exact hinv fp (mem_eraseA hfp2)
        next hemp =>
          simp only [Option.some.injEq, Prod.mk.injEq] at h
          obtain ⟨h1, -⟩ := h
          subst h1
          exact fwInv_insert hinv hrid hemp
  | exited sender0 =>
    simp only [step, Slave.exited, Option.some.injEq, Prod.mk.injEq] at h
    obtain ⟨h1, -⟩ := h
    subst h1
    exact hinv

/-- C3 (amended): in every reachable agent state, every framework in the map
is filed under its own id and has at least one executor (hence a framework is
present only while it has executors, and a fortiori while it has executors or
unacknowledged updates); a framework still present — even one with
unacknowledged updates — is dropped only by `KillFramework` or by
`executorExited` (which removes a framework as soon as its last executor
exits, regardless of pending updates). -/
theorem c3_framework_retention (s : SlaveState) (hs : Reachable s) :
    (∀ fp ∈ s.frameworks, fp.2.id = fp.1 ∧ fp.2.executors ≠ []) ∧
    (∀ (ev : Event) (s2 : SlaveState) (effs : List Effect) (fid : String),
      step s ev = some (s2, effs) →
      containsA s.frameworks fid = true →
      containsA s2.frameworks fid = false →
      ev = Event.killFramework fid ∨
        ∃ eid status, ev = Event.executorExited fid eid status) := by
  have hinv : ∀ fp ∈ s.frameworks, fp.2.id = fp.1 ∧ fp.2.executors ≠ [] := by
    induction hs with
    | init info resources => simp [initState]
    | next hprev hstep ih => exact c3_inv_step ih hstep
  refine ⟨hinv, ?_⟩
  intro ev s2 effs fid h hcont hdrop
  cases ev with
  | newMasterDetected pid0 =>
    simp only [step, Slave.newMasterDetected] at h
    split at h <;>
      (simp only [Option.some.injEq, Prod.mk.injEq] at h
       obtain ⟨h1, -⟩ := h
       subst h1
       have hdrop2 : containsA s.frameworks fid = false := hdrop
       rw [hcont] at hdrop2
       exact absurd hdrop2 (by simp))
  | noMasterDetected =>
    simp only [step, Slave.noMasterDetected, Option.some.injEq, Prod.mk.injEq] at h
    obtain ⟨h1, -⟩ := h
    subst h1
    have hdrop2 : containsA s.frameworks fid = false := hdrop
    rw [hcont] at hdrop2
    exact absurd hdrop2 (by simp)
  | registered slaveId0 =>
    simp only [step, Slave.registered, Option.some.injEq, Prod.mk.injEq] at h
    obtain ⟨h1, -⟩ := h
    subst h1
    have hdrop2 : containsA s.frameworks fid = false := hdrop
    rw [hcont] at hdrop2
    exact absurd hdrop2 (by simp)
  | reregistered slaveId0 =>
    simp only [step, Slave.reregistered] at h
    split at h
    · simp only [Option.some.injEq, Prod.mk.injEq] at h
      obtain ⟨h1, -⟩ := h
      subst h1
      have hdrop2 : containsA s.frameworks fid = false := hdrop
      rw [hcont] at hdrop2
      exact absurd hdrop2 (by simp)
    · exact absurd h (by simp)
  | runTask finfo0 fid0 pid0 task0 dir0 =>
    simp only [step, Slave.runTask] at h
    split at h
    next e he =>
      split at h
      · simp only [Option.some.injEq, Prod.mk.injEq] at h
        obtain ⟨h1, -⟩ := h
        subst h1
        exact absurd hdrop (by simp [containsA_insertA_of hcont])
      · split at h
        · exact absurd h (by simp)
        next e2 ha =>
          simp only [Option.some.injEq, Prod.mk.injEq] at h
          obtain ⟨h1, -⟩ := h
          subst h1
          exact absurd hdrop (by simp [containsA_insertA_of hcont])
    next he =>
      split at h
      · exact absurd h (by simp)
      next fw2 e2 hcreate =>
        simp only [Option.some.injEq, Prod.mk.injEq] at h
        obtain ⟨h1, -⟩ := h
        subst h1
        exact absurd hdrop (by simp [containsA_insertA_of hcont])
  | killTask fid0 tid0 now0 =>
    simp only [step, Slave.killTask] at h
    split at h
    · simp only [Option.some.injEq, Prod.mk.injEq] at h
      obtain ⟨h1, -⟩ := h
      subst h1
      have hdrop2 : containsA s.frameworks fid = false := hdrop
      rw [hcont] at hdrop2
      exact absurd hdrop2 (by simp)
    next framework hlook =>
      split at h
      · simp only [Option.some.injEq, Prod.mk.injEq] at h
        obtain ⟨h1, -⟩ := h
        subst h1
        have hdrop2 : containsA s.frameworks fid = false := hdrop
        rw [hcont] at hdrop2
        exact absurd hdrop2 (by simp)
      next ekey e hfind =>
        split at h <;>
          (simp only [Option.some.injEq, Prod.mk.injEq] at h
           obtain ⟨h1, -⟩ := h
           subst h1)
        · exact absurd hdrop (by simp [containsA_insertA_of hcont])
        · have hdrop2 : containsA s.frameworks fid = false := hdrop
          rw [hcont] at hdrop2
          exact absurd hdrop2 (by simp)
  | killFramework fid0 =>
    simp only [step, Slave.killFramework] at h
    split at h
    · simp only [Option.some.injEq, Prod.mk.injEq] at h
      obtain ⟨h1, -⟩ := h
      subst h1
      have hdrop2 : containsA s.frameworks fid = false := hdrop
      rw [hcont] at hdrop2
      exact absurd hdrop2 (by simp)
    next framework hlook =>
      have hf : lookupA s.frameworks fid0 = some framework := hlook
      simp only [Slave.removeFramework, Option.some.injEq, Prod.mk.injEq] at h
      obtain ⟨h1, -⟩ := h
      subst h1
      by_cases hfid : fid0 = fid
      · exact Or.inl (by rw [hfid])
      · have hne : framework.id ≠ fid := by
          rw [(hinv _ (lookupA_mem hf)).1]
          exact hfid
        exact absurd hdrop (by simp [containsA_eraseA_ne hne hcont])
  | schedulerMessage sid0 fid0 eid0 payload0 =>
    simp only [step, Slave.schedulerMessage] at h
    split at h
    · simp only [Option.some.injEq, Prod.mk.injEq] at h
      obtain ⟨h1, -⟩ := h
      subst h1
      have hdrop2 : containsA s.frameworks fid = false := hdrop
      rw [hcont] at hdrop2
      exact absurd hdrop2 (by simp)
    next framework hlook =>
      split at h
      · simp only [Option.some.injEq, Prod.mk.injEq] at h
        obtain ⟨h1, -⟩ := h
        subst h1
        have hdrop2 : containsA s.frameworks fid = false := hdrop
        rw [hcont] at hdrop2
        exact absurd hdrop2 (by simp)
      next e he =>
        split at h <;>
          (simp only [Option.some.injEq, Prod.mk.injEq] at h
           obtain ⟨h1, -⟩ := h
           subst h1
           have hdrop2 : containsA s.frameworks fid = false := hdrop
           rw [hcont] at hdrop2
           exact absurd hdrop2 (by simp))
  | updateFramework fid0 pid0 =>
    simp only [step, Slave.updateFramework] at h
    split at h
    · simp only [Option.some.injEq, Prod.mk.injEq] at h
      obtain ⟨h1, -⟩ := h
      subst h1
      have hdrop2 : containsA s.frameworks fid = false := hdrop
      rw [hcont] at hdrop2
      exact absurd hdrop2 (by simp)
    next framework hlook =>
      simp only [Option.some.injEq, Prod.mk.injEq] at h
      obtain ⟨h1, -⟩ := h
      subst h1
      exact absurd hdrop (by simp [containsA_insertA_of hcont])
  | statusUpdateAcknowledgement sid0 fid0 tid0 =>
    simp only [step, Slave.statusUpdateAcknowledgement] at h
    split at h
    · simp only [Option.some.injEq, Prod.mk.injEq] at h
      obtain ⟨h1, -⟩ := h
      subst h1
      have hdrop2 : containsA s.frameworks fid = false := hdrop
      rw [hcont] at hdrop2
      exact absurd hdrop2 (by simp)
    next framework hlook =>
      split at h <;>
        (simp only [Option.some.injEq, Prod.mk.injEq] at h
         obtain ⟨h1, -⟩ := h
         subst h1)
      · exact absurd hdrop (by simp [containsA_insertA_of hcont])
      · have hdrop2 : containsA s.frameworks fid = false := hdrop
        rw [hcont] at hdrop2
        exact absurd hdrop2 (by simp)
  | registerExecutor fid0 eid0 sender0 =>
    simp only [step, Slave.registerExecutor] at h
    split at h
    · simp only [Option.some.injEq, Prod.mk.injEq] at h
      obtain ⟨h1, -⟩ := h
      subst h1
      have hdrop2 : containsA s.frameworks fid = false := hdrop
      rw [hcont] at hdrop2
      exact absurd hdrop2 (by simp)
    next framework hlook =>
      split at h
      · simp only [Option.some.injEq, Prod.mk.injEq] at h
        obtain ⟨h1, -⟩ := h
        subst h1
        have hdrop2 : containsA s.frameworks fid = false := hdrop
        rw [hcont] at hdrop2
        exact absurd hdrop2 (by simp)
      next e he =>
        split at h
        · simp only [Option.some.injEq, Prod.mk.injEq] at h
          obtain ⟨h1, -⟩ := h
          subst h1
          have hdrop2 : containsA s.frameworks fid = false := hdrop
          rw [hcont] at hdrop2
          exact absurd hdrop2 (by simp)
        · split at h
          · exact absurd h (by simp)
          next e3 st2 effs0 hr =>
            simp only [Option.some.injEq, Prod.mk.injEq] at h
            obtain ⟨h1, -⟩ := h
            subst h1
            exact absurd hdrop (by simp [containsA_insertA_of hcont])
  | statusUpdate u =>
    simp only [step, Slave.statusUpdate] at h
    split at h
    · simp only [Option.some.injEq, Prod.mk.injEq] at h
      obtain ⟨h1, -⟩ := h
      subst h1
      have hdrop2 : containsA s.frameworks fid = false := hdrop
      rw [hcont] at hdrop2
      exact absurd hdrop2 (by simp)
    next framework hlook =>
      split at h
      · simp only [Option.some.injEq, Prod.mk.injEq] at h
        obtain ⟨h1, -⟩ := h
        subst h1
        have hdrop2 : containsA s.frameworks fid = false := hdrop
        rw [hcont] at hdrop2
        exact absurd hdrop2 (by simp)
      next ekey e hfind =>
        simp only [Option.some.injEq, Prod.mk.injEq] at h
        obtain ⟨h1, -⟩ := h
        subst h1
        exact absurd hdrop (by simp [containsA_insertA_of hcont])
  | executorMessage sid0 fid0 eid0 payload0 =>
    simp only [step, Slave.executorMessage] at h
    split at h <;>
      (simp only [Option.some.injEq, Prod.mk.injEq] at h
       obtain ⟨h1, -⟩ := h
       subst h1
       have hdrop2 : containsA s.frameworks fid = false := hdrop
       rw [hcont] at hdrop2
       exact absurd hdrop2 (by simp))
  | ping sender0 =>
    simp only [step, Slave.ping, Option.some.injEq, Prod.mk.injEq] at h
    obtain ⟨h1, -⟩ := h
    subst h1
    have hdrop2 : containsA s.frameworks fid = false := hdrop
    rw [hcont] at hdrop2
    exact absurd hdrop2 (by simp)
  | statusUpdateTimeout u =>
    simp only [step, Slave.statusUpdateTimeout] at h
    split at h
    · simp only [Option.some.injEq, Prod.mk.injEq] at h
      obtain ⟨h1, -⟩ := h
      subst h1
      have hdrop2 : containsA s.frameworks fid = false := hdrop
      rw [hcont] at hdrop2
      exact absurd hdrop2 (by simp)
    · split at h <;>
        (simp only [Option.some.injEq, Prod.mk.injEq] at h
         obtain ⟨h1, -⟩ := h
         subst h1
         have hdrop2 : containsA s.frameworks fid = false := hdrop
         rw [hcont] at hdrop2
         exact absurd hdrop2 (by simp))
  | executorExited fid0 eid0 status0 =>
    simp only [step, Slave.executorExited] at h
    split at h
    · simp only [Option.some.injEq, Prod.mk.injEq] at h
      obtain ⟨h1, -⟩ := h
      subst h1
      have hdrop2 : containsA s.frameworks fid = false := hdrop
      rw [hcont] at hdrop2
      exact absurd hdrop2 (by simp)
    next framework hlook =>
      have hf : lookupA s.frameworks fid0 = some framework := hlook
      split at h
      · simp only [Option.some.injEq, Prod.mk.injEq] at h
        obtain ⟨h1, -⟩ := h
        subst h1
        have hdrop2 : containsA s.frameworks fid = false := hdrop
        rw [hcont] at hdrop2
        exact absurd hdrop2 (by simp)
      next e he =>
        have hrid : (Slave.removeExecutor framework e false).1.id = fid0 := by
          have h0 : (Slave.removeExecutor framework e false).1.id = framework.id := rfl
          rw [h0]
          exact (hinv _ (lookupA_mem hf)).1
        split at h
        next hemp =>
          simp only [Slave.removeFramework, Option.some.injEq, Prod.mk.injEq] at h
          obtain ⟨h1, -⟩ := h
          subst h1
          by_cases hfid : fid0 = fid
          · exact Or.inr ⟨eid0, status0, by rw [hfid]⟩
          · have hpres : containsA
                (eraseA (insertA s.frameworks fid0
                  (Slave.removeExecutor framework e false).1)
                  (Slave.removeExecutor framework e false).1.id) fid = true := by
              rw [hrid, eraseA_insertA]
              exact containsA_eraseA_ne (by
                rw [hrid] at *
                exact fun hc => hfid hc) hcont
            exact absurd hpres (by simp [hdrop])
        next hemp =>
          simp only [Option.some.injEq, Prod.mk.injEq] at h
          obtain ⟨h1, -⟩ := h
          subst h1
          exact absurd hdrop (by simp [containsA_insertA_of hcont])
  | exited sender0 =>
    simp only [step, Slave.exited, Option.some.injEq, Prod.mk.injEq] at h
    obtain ⟨h1, -⟩ := h
    subst h1
    have hdrop2 : containsA s.frameworks fid = false := hdrop
    rw [hcont] at hdrop2
    exact absurd hdrop2 (by simp)

/-! ## Claim C2: the resource ledger -/

/-- Replacing or adding one framework whose executors all satisfy the ledger
invariant preserves the state-wide ledger invariant. -/
theorem ledger_insert {l : List (String × Framework)} {fid0 : String}
    {fw' : Framework}
    (hok : ∀ fp ∈ l, ∀ ep ∈ fp.2.executors, ledgerOK ep.2)
    (hnew : ∀ ep ∈ fw'.executors, ledgerOK ep.2) :
    ∀ fp ∈ insertA l fid0 fw', ∀ ep ∈ fp.2.executors, ledgerOK ep.2 := by
  intro fp hfp
  rcases mem_insertA hfp with h1 | h1
  · subst h1
    exact hnew
  · exact hok fp h1

/-- Replacing or adding one ledger-correct executor preserves the per-map
ledger invariant. -/
theorem ledger_exec_insert {l : List (String × Executor)} {key : String}
    {e' : Executor}
    (hok : ∀ ep ∈ l, ledgerOK ep.2) (hnew : ledgerOK e') :
    ∀ ep ∈ insertA l key e', ledgerOK ep.2 := by
  intro ep hep
  rcases mem_insertA hep with h1 | h1
  · subst h1
    exact hnew
  · exact hok ep h1

/-- Every handler preserves the ledger invariant
`executor.resources = Σ resources(t), t ∈ launchedTasks`. -/
theorem c2_ledger_step {s s2 : SlaveState} {effs : List Effect} {ev : Event}
    (h : step s ev = some (s2, effs)) (hok : stateLedgerOK s) :
    stateLedgerOK s2 := by
  cases ev with
  | newMasterDetected pid0 =>
    simp only [step, Slave.newMasterDetected] at h
    split at h <;>
      (simp only [Option.some.injEq, Prod.mk.injEq] at h
       obtain ⟨h1, -⟩ := h
       subst h1
       exact hok)
  | noMasterDetected =>
    simp only [step, Slave.noMasterDetected, Option.some.injEq, Prod.mk.injEq] at h
    obtain ⟨h1, -⟩ := h
    subst h1
    exact hok
  | registered slaveId0 =>
    simp only [step, Slave.registered, Option.some.injEq, Prod.mk.injEq] at h
    obtain ⟨h1, -⟩ := h
    subst h1
    exact hok
  | reregistered slaveId0 =>
    simp only [step, Slave.reregistered] at h
    split at h
    · simp only [Option.some.injEq, Prod.mk.injEq] at h
      obtain ⟨h1, -⟩ := h
      subst h1
      exact hok
    · exact absurd h (by simp)
  | runTask finfo0 fid0 pid0 task0 dir0 =>
    simp only [step, Slave.runTask] at h
    have hfwled : ∀ ep ∈ (match Slave.getFramework s fid0 with
        | some f => f
        | none => (⟨fid0, finfo0, pid0, [], []⟩ : Framework)).executors,
        ledgerOK ep.2 := by
      cases hlook : Slave.getFramework s fid0 with
      | none => simp
      | some f => exact hok _ (lookupA_mem hlook)
    split at h
    next e he =>
      have hlede : ledgerOK e := hfwled _ (lookupA_mem he)
      split at h
      · simp only [Option.some.injEq, Prod.mk.injEq] at h
        obtain ⟨h1, -⟩ := h
        subst h1
        exact ledger_insert hok (ledger_exec_insert hfwled hlede)
      · split at h
        · exact absurd h (by simp)
        next e2 ha =>
          simp only [Option.some.injEq, Prod.mk.injEq] at h
          obtain ⟨h1, -⟩ := h
          subst h1
          exact ledger_insert hok
            (ledger_exec_insert hfwled (addTask_ledger ha hlede))
    next he =>
      split at h
      · exact absurd h (by simp)
      next fw2 e2 hcreate =>
        simp only [Option.some.injEq, Prod.mk.injEq] at h
        obtain ⟨h1, -⟩ := h
        subst h1
        obtain ⟨-, -, -, -, hexecs, -, he2⟩ := createExecutor_updates hcreate
        have hlede2 : ledgerOK e2 := by
          subst he2
          intro n
          rfl
        refine ledger_insert hok ?_
        intro ep hep
        rcases mem_insertA hep with h1 | h1
        · subst h1
          exact hlede2
        · rw [hexecs] at h1
          rcases mem_insertA h1 with h2 | h2
          · subst h2
            exact hlede2
          · exact hfwled _ h2
  | killTask fid0 tid0 now0 =>
    simp only [step, Slave.killTask] at h
    split at h
    · simp only [Option.some.injEq, Prod.mk.injEq] at h
      obtain ⟨h1, -⟩ := h
      subst h1
      exact hok
    next framework hlook =>
      have hfwled : ∀ ep ∈ framework.executors, ledgerOK ep.2 :=
        hok _ (lookupA_mem (show lookupA s.frameworks fid0 = some framework
          from hlook))
      split at h
      · simp only [Option.some.injEq, Prod.mk.injEq] at h
        obtain ⟨h1, -⟩ := h
        subst h1
        exact hok
      next ekey e hfind =>
        have hlede : ledgerOK e :=
          hfwled _ (List.mem_of_find?_eq_some hfind)
        split at h <;>
          (simp only [Option.some.injEq, Prod.mk.injEq] at h
           obtain ⟨h1, -⟩ := h
           subst h1)
        · exact ledger_insert hok
            (ledger_exec_insert hfwled (removeTask_ledger tid0 hlede))
        · exact hok
  | killFramework fid0 =>
    simp only [step, Slave.killFramework] at h
    split at h
    · simp only [Option.some.injEq, Prod.mk.injEq] at h
      obtain ⟨h1, -⟩ := h
      subst h1
      exact hok
    next framework hlook =>
      simp only [Slave.removeFramework, Option.some.injEq, Prod.mk.injEq] at h
      obtain ⟨h1, -⟩ := h
      subst h1
      intro fp hfp
      exact hok fp (mem_eraseA hfp)
  | schedulerMessage sid0 fid0 eid0 payload0 =>
    simp only [step, Slave.schedulerMessage] at h
    split at h
    · simp only [Option.some.injEq, Prod.mk.injEq] at h
      obtain ⟨h1, -⟩ := h
      subst h1
      exact hok
    next framework hlook =>
      split at h
      · simp only [Option.some.injEq, Prod.mk.injEq] at h
        obtain ⟨h1, -⟩ := h
        subst h1
        exact hok
      next e he =>
        split at h <;>
          (simp only [Option.some.injEq, Prod.mk.injEq] at h
           obtain ⟨h1, -⟩ := h
           subst h1
           exact hok)
  | updateFramework fid0 pid0 =>
    simp only [step, Slave.updateFramework] at h
    split at h
    · simp only [Option.some.injEq, Prod.mk.injEq] at h
      obtain ⟨h1, -⟩ := h
      subst h1
      exact hok
    next framework hlook =>
      simp only [Option.some.injEq, Prod.mk.injEq] at h
      obtain ⟨h1, -⟩ := h
      subst h1
      exact ledger_insert hok
        (hok _ (lookupA_mem (show lookupA s.frameworks fid0 = some framework
          from hlook)))
  | statusUpdateAcknowledgement sid0 fid0 tid0 =>
    simp only [step, Slave.statusUpdateAcknowledgement] at h
    split at h
    · simp only [Option.some.injEq, Prod.mk.injEq] at h
      obtain ⟨h1, -⟩ := h
      subst h1
      exact hok
    next framework hlook =>
      split at h <;>
        (simp only [Option.some.injEq, Prod.mk.injEq] at h
         obtain ⟨h1, -⟩ := h
         subst h1)
      · exact ledger_insert hok
          (hok _ (lookupA_mem (show lookupA s.frameworks fid0 = some framework
            from hlook)))
      · exact hok
  | registerExecutor fid0 eid0 sender0 =>
    simp only [step, Slave.registerExecutor] at h
    split at h
    · simp only [Option.some.injEq, Prod.mk.injEq] at h
      obtain ⟨h1, -⟩ := h
      subst h1
      exact hok
    next framework hlook =>
      have hfwled : ∀ ep ∈ framework.executors, ledgerOK ep.2 :=
        hok _ (lookupA_mem (show lookupA s.frameworks fid0 = some framework
          from hlook))
      split at h
      · simp only [Option.some.injEq, Prod.mk.injEq] at h
        obtain ⟨h1, -⟩ := h
        subst h1
        exact hok
      next e he =>
        have hlede : ledgerOK e := hfwled _ (lookupA_mem he)
        split at h
        · simp only [Option.some.injEq, Prod.mk.injEq] at h
          obtain ⟨h1, -⟩ := h
          subst h1
          exact hok
        · split at h
          · exact absurd h (by simp)
          next e3 st2 effs0 hr =>
            simp only [Option.some.injEq, Prod.mk.injEq] at h
            obtain ⟨h1, -⟩ := h
            subst h1
            obtain ⟨-, -, -, -, -, -, -, -, hled⟩ :=
              runQueuedTasks_some framework.info framework.id framework.pid
                sender0 e.queuedTasks { e with pid := sender0 } s.stats
                e3 st2 effs0 hr
            have hlede3 : ledgerOK e3 := hled hlede
            exact ledger_insert hok (ledger_exec_insert hfwled hlede3)
  | statusUpdate u =>
    simp only [step, Slave.statusUpdate] at h
    split at h
    · simp only [Option.some.injEq, Prod.mk.injEq] at h
      obtain ⟨h1, -⟩ := h
      subst h1
      exact hok
    next framework hlook =>
      have hfwled : ∀ ep ∈ framework.executors, ledgerOK ep.2 :=
        hok _ (lookupA_mem (show lookupA s.frameworks u.frameworkId =
          some framework from hlook))
      split at h
      · simp only [Option.some.injEq, Prod.mk.injEq] at h
        obtain ⟨h1, -⟩ := h
        subst h1
        exact hok
      next ekey e hfind =>
        have hlede : ledgerOK e :=
          hfwled _ (List.mem_of_find?_eq_some hfind)
        simp only [Option.some.injEq, Prod.mk.injEq] at h
        obtain ⟨h1, -⟩ := h
        subst h1
        refine ledger_insert hok (ledger_exec_insert hfwled ?_)
        by_cases hterm : terminal u.status.state
        · simp only [hterm, if_true]
          exact removeTask_ledger _ (updateTaskState_ledger _ _ hlede)
        · simp only [hterm, if_false, ite_false]
          exact updateTaskState_ledger _ _ hlede
  | executorMessage sid0 fid0 eid0 payload0 =>
    simp only [step, Slave.executorMessage] at h
    split at h <;>
      (simp only [Option.some.injEq, Prod.mk.injEq] at h
       obtain ⟨h1, -⟩ := h
       subst h1
       exact hok)
  | ping sender0 =>
    simp only [step, Slave.ping, Option.some.injEq, Prod.mk.injEq] at h
    obtain ⟨h1, -⟩ := h
    subst h1
    exact hok
  | statusUpdateTimeout u =>
    simp only [step, Slave.statusUpdateTimeout] at h
    split at h
    · simp only [Option.some.injEq, Prod.mk.injEq] at h
      obtain ⟨h1, -⟩ := h
      subst h1
      exact hok
    · split at h <;>
        (simp only [Option.some.injEq, Prod.mk.injEq] at h
         obtain ⟨h1, -⟩ := h
         subst h1
         exact hok)
  | executorExited fid0 eid0 status0 =>
    simp only [step, Slave.executorExited] at h
    split at h
    · simp only [Option.some.injEq, Prod.mk.injEq] at h
      obtain ⟨h1, -⟩ := h
      subst h1
      exact hok
    next framework hlook =>
      have hfwled : ∀ ep ∈ framework.executors, ledgerOK ep.2 :=
        hok _ (lookupA_mem (show lookupA s.frameworks fid0 = some framework
          from hlook))
      split at h
      · simp only [Option.some.injEq, Prod.mk.injEq] at h
        obtain ⟨h1, -⟩ := h
        subst h1
        exact hok
      next e he =>
        have hdestroy : ∀ ep ∈ (Slave.removeExecutor framework e false).1.executors,
            ledgerOK ep.2 := by
          intro ep hep
          exact hfwled ep (mem_eraseA hep)
        split at h
        next hemp =>
          simp only [Slave.removeFramework, Option.some.injEq, Prod.mk.injEq] at h
          obtain ⟨h1, -⟩ := h
          subst h1
          intro fp hfp
          have hfp2 := mem_eraseA hfp
          rcases mem_insertA hfp2 with h1 | h1
          · subst h1
            exact hdestroy
          · exact hok fp h1
        next hemp =>
          simp only [Option.some.injEq, Prod.mk.injEq] at h
          obtain ⟨h1, -⟩ := h
          subst h1
          exact ledger_insert hok hdestroy
  | exited sender0 =>
    simp only [step, Slave.exited, Option.some.injEq, Prod.mk.injEq] at h
    obtain ⟨h1, -⟩ := h
    subst h1
    exact hok

/-- Splitting a successful lookup through an insertion. -/
theorem lookupA_insertA_cases {β : Type} {l : List (String × β)} {k0 k : String}
    {v w : β} (h : lookupA (insertA l k0 v) k = some w) :
    (k0 = k ∧ w = v) ∨ (k0 ≠ k ∧ lookupA l k = some w) := by
  rw [lookupA_insertA] at h
  by_cases hf : k0 = k
  · rw [if_pos hf] at h
    injection h with h1
    exact Or.inl ⟨hf, h1.symm⟩
  · rw [if_neg hf] at h
    exact Or.inr ⟨hf, h⟩

/-- A list of plain sends contains no `resourcesChanged` dispatch. -/
theorem filter_isRC_sends {α : Type} (a b dest : String) (f : α → Msg)
    (l : List α) :
    (l.map (fun x => Effect.send dest (f x))).filter (Effect.isRC a b) = [] := by
  induction l with
  | nil => rfl
  | cons x rest ih => simpa [Effect.isRC] using ih

/-- Two successful lookups in the same maps give the same executor. -/
theorem rc_unchanged {l : List (String × Framework)} {fid eid : String}
    {fw fw2 : Framework} {e e2 : Executor}
    (hfw : lookupA l fid = some fw) (he : lookupA fw.executors eid = some e)
    (hfw2 : lookupA l fid = some fw2)
    (he2 : lookupA fw2.executors eid = some e2) : e2 = e := by
  rw [hfw] at hfw2
  injection hfw2 with h1
  subst h1
  rw [he] at he2
  injection he2 with h2
  exact h2.symm

/-- Every handler that changes an executor's `resources` field emits exactly
one `resourcesChanged` dispatch to the isolation module for that executor
within the same handler run. -/
theorem c2_rc_step {s s2 : SlaveState} {effs : List Effect} {ev : Event}
    (h : step s ev = some (s2, effs))
    (hnd : (s.frameworks.map Prod.fst).Nodup) :
    ∀ fid fw fw2 eid e e2,
      lookupA s.frameworks fid = some fw →
      (fw.executors.map Prod.fst).Nodup →
      lookupA fw.executors eid = some e →
      lookupA s2.frameworks fid = some fw2 →
      lookupA fw2.executors eid = some e2 →
      e2.resources ≠ e.resources →
      (effs.filter (Effect.isRC fw.id e.id)).length = 1 := by
  intro fid fw fw2 eid e e2 hfw hnde he hfw2 he2 hne
  have hfwg : Slave.getFramework s fid = some fw := hfw
  cases ev with
  | newMasterDetected pid0 =>
    simp only [step, Slave.newMasterDetected] at h
    split at h <;>
      (simp only [Option.some.injEq, Prod.mk.injEq] at h
       obtain ⟨h1, -⟩ := h
       subst h1
       exact absurd (congrArg Executor.resources (rc_unchanged hfw he hfw2 he2)) hne)
  | noMasterDetected =>
    simp only [step, Slave.noMasterDetected, Option.some.injEq, Prod.mk.injEq] at h
    obtain ⟨h1, -⟩ := h
    subst h1
    exact absurd (congrArg Executor.resources (rc_unchanged hfw he hfw2 he2)) hne
  | registered slaveId0 =>
    simp only [step, Slave.registered, Option.some.injEq, Prod.mk.injEq] at h
    obtain ⟨h1, -⟩ := h
    subst h1
    exact absurd (congrArg Executor.resources (rc_unchanged hfw he hfw2 he2)) hne
  | reregistered slaveId0 =>
    simp only [step, Slave.reregistered] at h
    split at h
    · simp only [Option.some.injEq, Prod.mk.injEq] at h
      obtain ⟨h1, -⟩ := h
      subst h1
      exact absurd (congrArg Executor.resources (rc_unchanged hfw he hfw2 he2)) hne
    · exact absurd h (by simp)
  | runTask finfo0 fid0 pid0 task0 dir0 =>
    simp only [step, Slave.runTask] at h
    split at h
    next e0 he0 =>
      split at h
      next hpid0 =>
        simp only [Option.some.injEq, Prod.mk.injEq] at h
        obtain ⟨h1, -⟩ := h
        subst h1
        rcases lookupA_insertA_cases hfw2 with ⟨hf, hfw2eq⟩ | ⟨hf, hrest⟩
        · subst hfw2eq
          have hmfw : (match Slave.getFramework s fid0 with
              | some f => f
              | none => (⟨fid0, finfo0, pid0, [], []⟩ : Framework)) = fw := by
            rw [hf, hfwg]
          rw [hmfw] at he2
          rcases lookupA_insertA_cases he2 with ⟨hk, he2eq⟩ | ⟨hk, hrest2⟩
          · subst he2eq
            have he0l : lookupA fw.executors eid = some e0 := by
              rw [← hk]
              rw [hmfw] at he0
              exact he0
            rw [he] at he0l
            injection he0l with h2
            subst h2
            exact absurd rfl hne
          · rw [he] at hrest2
            injection hrest2 with h2
            exact absurd (congrArg Executor.resources h2.symm) hne
        · rw [hfw] at hrest
          injection hrest with h1
          subst h1
          rw [he] at he2
          injection he2 with h2
          exact absurd (congrArg Executor.resources h2.symm) hne
      next hpid0 =>
        split at h
        · exact absurd h (by simp)
        next eX haddT =>
          simp only [Option.some.injEq, Prod.mk.injEq] at h
          obtain ⟨h1, heffs⟩ := h
          subst h1
          rcases lookupA_insertA_cases hfw2 with ⟨hf, hfw2eq⟩ | ⟨hf, hrest⟩
          · subst hfw2eq
            have hmfw : (match Slave.getFramework s fid0 with
                | some f => f
                | none => (⟨fid0, finfo0, pid0, [], []⟩ : Framework)) = fw := by
              rw [hf, hfwg]
            rw [hmfw] at he2
            rcases lookupA_insertA_cases he2 with ⟨hk, he2eq⟩ | ⟨hk, hrest2⟩
            · have he0l : lookupA fw.executors eid = some e0 := by
                rw [← hk]
                rw [hmfw] at he0
                exact he0
              rw [he] at he0l
              injection he0l with h2
              subst h2
              subst heffs
              simp [Effect.isRC, hmfw]
            · rw [he] at hrest2
              injection hrest2 with h2
              exact absurd (congrArg Executor.resources h2.symm) hne
          · rw [hfw] at hrest
            injection hrest with h1
            subst h1
            rw [he] at he2
            injection he2 with h2
            exact absurd (congrArg Executor.resources h2.symm) hne
    next he0 =>
      split at h
      · exact absurd h (by simp)
      next fw2c e2c hcreate =>
        simp only [Option.some.injEq, Prod.mk.injEq] at h
        obtain ⟨h1, -⟩ := h
        subst h1
        rcases lookupA_insertA_cases hfw2 with ⟨hf, hfw2eq⟩ | ⟨hf, hrest⟩
        · subst hfw2eq
          have hmfw : (match Slave.getFramework s fid0 with
              | some f => f
              | none => (⟨fid0, finfo0, pid0, [], []⟩ : Framework)) = fw := by
            rw [hf, hfwg]
          obtain ⟨-, -, -, -, hexecs, hcont, -⟩ := createExecutor_updates hcreate
          rw [hexecs, hmfw] at he2
          rw [insertA_insertA] at he2
          rcases lookupA_insertA_cases he2 with ⟨hk, he2eq⟩ | ⟨hk, hrest2⟩
          · rw [hmfw] at hcont
            rw [← hk] at he
            rw [show lookupA fw.executors _ = none from by
              unfold containsA at hcont
              cases hl : lookupA fw.executors _ with
              | none => rfl
              | some v => rw [hl] at hcont; simp at hcont] at he
            exact absurd he (by simp)
          · rw [he] at hrest2
            injection hrest2 with h2
            exact absurd (congrArg Executor.resources h2.symm) hne
        · rw [hfw] at hrest
          injection hrest with h1
          subst h1
          rw [he] at he2
          injection he2 with h2
          exact absurd (congrArg Executor.resources h2.symm) hne
  | killTask fid0 tid0 now0 =>
    simp only [step, Slave.killTask] at h
    split at h
    · simp only [Option.some.injEq, Prod.mk.injEq] at h
      obtain ⟨h1, -⟩ := h
      subst h1
      exact absurd (congrArg Executor.resources (rc_unchanged hfw he hfw2 he2)) hne
    next framework hlook =>
      split at h
      · simp only [Option.some.injEq, Prod.mk.injEq] at h
        obtain ⟨h1, -⟩ := h
        subst h1
        exact absurd (congrArg Executor.resources (rc_unchanged hfw he hfw2 he2)) hne
      next ekey e0 hfind =>
        split at h
        next hpid0 =>
          simp only [Option.some.injEq, Prod.mk.injEq] at h
          obtain ⟨h1, heffs⟩ := h
          subst h1
          rcases lookupA_insertA_cases hfw2 with ⟨hf, hfw2eq⟩ | ⟨hf, hrest⟩
          · subst hfw2eq
            have hfweq : framework = fw := by
              rw [hf] at hlook
              rw [hfwg] at hlook
              injection hlook with h1
              exact h1.symm
            subst hfweq
            rcases lookupA_insertA_cases he2 with ⟨hk, he2eq⟩ | ⟨hk, hrest2⟩
            · have he0l : lookupA framework.executors eid = some e0 := by
                rw [← hk]
                exact find?_eq_lookupA_of_nodup hfind hnde
              rw [he] at he0l
              injection he0l with h2
              subst h2
              subst heffs
              simp [Effect.isRC]
            · rw [he] at hrest2
              injection hrest2 with h2
              exact absurd (congrArg Executor.resources h2.symm) hne
          · rw [hfw] at hrest
            injection hrest with h1
            subst h1
            rw [he] at he2
            injection he2 with h2
            exact absurd (congrArg Executor.resources h2.symm) hne
        next hpid0 =>
          simp only [Option.some.injEq, Prod.mk.injEq] at h
          obtain ⟨h1, -⟩ := h
          subst h1
          exact absurd (congrArg Executor.resources (rc_unchanged hfw he hfw2 he2)) hne
  | killFramework fid0 =>
    simp only [step, Slave.killFramework] at h
    split at h
    · simp only [Option.some.injEq, Prod.mk.injEq] at h
      obtain ⟨h1, -⟩ := h
      subst h1
      exact absurd (congrArg Executor.resources (rc_unchanged hfw he hfw2 he2)) hne
    next framework hlook =>
      simp only [Slave.removeFramework, Option.some.injEq, Prod.mk.injEq] at h
      obtain ⟨h1, -⟩ := h
      subst h1
      by_cases hfid : framework.id = fid
      · have : lookupA (eraseA s.frameworks framework.id) fid = none := by
          rw [hfid]
          exact lookupA_eraseA_self_of_nodup hnd
        rw [this] at hfw2
        exact absurd hfw2 (by simp)
      · have hfw2s : lookupA s.frameworks fid = some fw2 := by
          rw [← lookupA_eraseA_ne s.frameworks hfid]
          exact hfw2
        exact absurd (congrArg Executor.resources
          (rc_unchanged hfw he hfw2s he2)) hne
  | schedulerMessage sid0 fid0 eid0 payload0 =>
    simp only [step, Slave.schedulerMessage] at h
    split at h
    · simp only [Option.some.injEq, Prod.mk.injEq] at h
      obtain ⟨h1, -⟩ := h
      subst h1
      exact absurd (congrArg Executor.resources (rc_unchanged hfw he hfw2 he2)) hne
    next framework hlook =>
      split at h
      · simp only [Option.some.injEq, Prod.mk.injEq] at h
        obtain ⟨h1, -⟩ := h
        subst h1
        exact absurd (congrArg Executor.resources (rc_unchanged hfw he hfw2 he2)) hne
      next e0 he0 =>
        split at h <;>
          (simp only [Option.some.injEq, Prod.mk.injEq] at h
           obtain ⟨h1, -⟩ := h
           subst h1
           exact absurd (congrArg Executor.resources
             (rc_unchanged hfw he hfw2 he2)) hne)
  | updateFramework fid0 pid0 =>
    simp only [step, Slave.updateFramework] at h
    split at h
    · simp only [Option.some.injEq, Prod.mk.injEq] at h
      obtain ⟨h1, -⟩ := h
      subst h1
      exact absurd (congrArg Executor.resources (rc_unchanged hfw he hfw2 he2)) hne
    next framework hlook =>
      simp only [Option.some.injEq, Prod.mk.injEq] at h
      obtain ⟨h1, -⟩ := h
      subst h1
      rcases lookupA_insertA_cases hfw2 with ⟨hf, hfw2eq⟩ | ⟨hf, hrest⟩
      · subst hfw2eq
        have hfweq : framework = fw := by
          rw [hf] at hlook
          rw [hfwg] at hlook
          injection hlook with h1
          exact h1.symm
        subst hfweq
        rw [he] at he2
        injection he2 with h2
        exact absurd (congrArg Executor.resources h2.symm) hne
      · rw [hfw] at hrest
        injection hrest with h1
        subst h1
        rw [he] at he2
        injection he2 with h2
        exact absurd (congrArg Executor.resources h2.symm) hne
  | statusUpdateAcknowledgement sid0 fid0 tid0 =>
    simp only [step, Slave.statusUpdateAcknowledgement] at h
    split at h
    · simp only [Option.some.injEq, Prod.mk.injEq] at h
      obtain ⟨h1, -⟩ := h
      subst h1
      exact absurd (congrArg Executor.resources (rc_unchanged hfw he hfw2 he2)) hne
    next framework hlook =>
      split at h <;>
        (simp only [Option.some.injEq, Prod.mk.injEq] at h
         obtain ⟨h1, -⟩ := h
         subst h1)
      · rcases lookupA_insertA_cases hfw2 with ⟨hf, hfw2eq⟩ | ⟨hf, hrest⟩
        · subst hfw2eq
          have hfweq : framework = fw := by
            rw [hf] at hlook
            rw [hfwg] at hlook
            injection hlook with h1
            exact h1.symm
          subst hfweq
          rw [he] at he2
          injection he2 with h2
          exact absurd (congrArg Executor.resources h2.symm) hne
        · rw [hfw] at hrest
          injection hrest with h1
          subst h1
          rw [he] at he2
          injection he2 with h2
          exact absurd (congrArg Executor.resources h2.symm) hne
      · exact absurd (congrArg Executor.resources (rc_unchanged hfw he hfw2 he2)) hne
  | registerExecutor fid0 eid0 sender0 =>
    simp only [step, Slave.registerExecutor] at h
    split at h
    · simp only [Option.some.injEq, Prod.mk.injEq] at h
      obtain ⟨h1, -⟩ := h
      subst h1
      exact absurd (congrArg Executor.resources (rc_unchanged hfw he hfw2 he2)) hne
    next framework hlook =>
      split at h
      · simp only [Option.some.injEq, Prod.mk.injEq] at h
        obtain ⟨h1, -⟩ := h
        subst h1
        exact absurd (congrArg Executor.resources (rc_unchanged hfw he hfw2 he2)) hne
      next e0 he0 =>
        split at h
        · simp only [Option.some.injEq, Prod.mk.injEq] at h
          obtain ⟨h1, -⟩ := h
          subst h1
          exact absurd (congrArg Executor.resources (rc_unchanged hfw he hfw2 he2)) hne
        · split at h
          · exact absurd h (by simp)
          next e3 st2 effs0 hr =>
            simp only [Option.some.injEq, Prod.mk.injEq] at h
            obtain ⟨h1, heffs⟩ := h
            subst h1
            rcases lookupA_insertA_cases hfw2 with ⟨hf, hfw2eq⟩ | ⟨hf, hrest⟩
            · subst hfw2eq
              have hfweq : framework = fw := by
                rw [hf] at hlook
                rw [hfwg] at hlook
                injection hlook with h1
                exact h1.symm
              subst hfweq
              rcases lookupA_insertA_cases he2 with ⟨hk, he2eq⟩ | ⟨hk, hrest2⟩
              · have he0l : lookupA framework.executors eid = some e0 := by
                  rw [← hk]
                  exact he0
                rw [he] at he0l
                injection he0l with h2
                subst h2
                subst heffs
                obtain ⟨heffs0, -, -, -, -, -, -, -, -⟩ :=
                  runQueuedTasks_some framework.info framework.id framework.pid
                    sender0 e.queuedTasks { e with pid := sender0 } s.stats
                    e3 st2 effs0 hr
                subst heffs0
                simp [Effect.isRC, List.filter_append,
                  filter_isRC_sends framework.id e.id sender0
                    (fun p => Msg.runTaskMsg framework.info framework.id
                      framework.pid p.2) e.queuedTasks]
              · rw [he] at hrest2
                injection hrest2 with h2
                exact absurd (congrArg Executor.resources h2.symm) hne
            · rw [hfw] at hrest
              injection hrest with h1
              subst h1
              rw [he] at he2
              injection he2 with h2
              exact absurd (congrArg Executor.resources h2.symm) hne
  | statusUpdate u =>
    simp only [step, Slave.statusUpdate] at h
    split at h
    · simp only [Option.some.injEq, Prod.mk.injEq] at h
      obtain ⟨h1, -⟩ := h
      subst h1
      exact absurd (congrArg Executor.resources (rc_unchanged hfw he hfw2 he2)) hne
    next framework hlook =>
      split at h
      · simp only [Option.some.injEq, Prod.mk.injEq] at h
        obtain ⟨h1, -⟩ := h
        subst h1
        exact absurd (congrArg Executor.resources (rc_unchanged hfw he hfw2 he2)) hne
      next ekey e0 hfind =>
        simp only [Option.some.injEq, Prod.mk.injEq] at h
        obtain ⟨h1, heffs⟩ := h
        subst h1
        rcases lookupA_insertA_cases hfw2 with ⟨hf, hfw2eq⟩ | ⟨hf, hrest⟩
        · subst hfw2eq
          have hfweq : framework = fw := by
            rw [hf] at hlook
            rw [hfwg] at hlook
            injection hlook with h1
            exact h1.symm
          subst hfweq
          rcases lookupA_insertA_cases he2 with ⟨hk, he2eq⟩ | ⟨hk, hrest2⟩
          · have he0l : lookupA framework.executors eid = some e0 := by
              rw [← hk]
              exact find?_eq_lookupA_of_nodup hfind hnde
            rw [he] at he0l
            injection he0l with h2
            subst h2
            subst heffs
            by_cases hterm : terminal u.status.state
            · subst he2eq
              simp [hterm, Effect.isRC]
            · subst he2eq
              simp only [hterm, if_false, ite_false] at hne
              exact absurd rfl hne
          · rw [he] at hrest2
            injection hrest2 with h2
            exact absurd (congrArg Executor.resources h2.symm) hne
        · rw [hfw] at hrest
          injection hrest with h1
          subst h1
          rw [he] at he2
          injection he2 with h2
          exact absurd (congrArg Executor.resources h2.symm) hne
  | executorMessage sid0 fid0 eid0 payload0 =>
    simp only [step, Slave.executorMessage] at h
    split at h <;>
      (simp only [Option.some.injEq, Prod.mk.injEq] at h
       obtain ⟨h1, -⟩ := h
       subst h1
       exact absurd (congrArg Executor.resources (rc_unchanged hfw he hfw2 he2)) hne)
  | ping sender0 =>
    simp only [step, Slave.ping, Option.some.injEq, Prod.mk.injEq] at h
    obtain ⟨h1, -⟩ := h
    subst h1
    exact absurd (congrArg Executor.resources (rc_unchanged hfw he hfw2 he2)) hne
  | statusUpdateTimeout u =>
    simp only [step, Slave.statusUpdateTimeout] at h
    split at h
    · simp only [Option.some.injEq, Prod.mk.injEq] at h
      obtain ⟨h1, -⟩ := h
      subst h1
      exact absurd (congrArg Executor.resources (rc_unchanged hfw he hfw2 he2)) hne
    · split at h <;>
        (simp only [Option.some.injEq, Prod.mk.injEq] at h
         obtain ⟨h1, -⟩ := h
         subst h1
         exact absurd (congrArg Executor.resources
           (rc_unchanged hfw he hfw2 he2)) hne)
  | executorExited fid0 eid0 status0 =>
    simp only [step, Slave.executorExited] at h
    split at h
    · simp only [Option.some.injEq, Prod.mk.injEq] at h
      obtain ⟨h1, -⟩ := h
      subst h1
      exact absurd (congrArg Executor.resources (rc_unchanged hfw he hfw2 he2)) hne
    next framework hlook =>
      split at h
      · simp only [Option.some.injEq, Prod.mk.injEq] at h
        obtain ⟨h1, -⟩ := h
        subst h1
        exact absurd (congrArg Executor.resources (rc_unchanged hfw he hfw2 he2)) hne
      next e0 he0 =>
        split at h
        next hemp =>
          simp only [Slave.removeFramework, Option.some.injEq, Prod.mk.injEq] at h
          obtain ⟨h1, -⟩ := h
          subst h1
          by_cases hrid : (Slave.removeExecutor framework e0 false).1.id = fid
          · have : lookupA (eraseA (insertA s.frameworks fid0
                (Slave.removeExecutor framework e0 false).1)
                (Slave.removeExecutor framework e0 false).1.id) fid = none := by
              rw [hrid]
              exact lookupA_eraseA_self_of_nodup (keys_insertA_nodup fid0 _ hnd)
            rw [this] at hfw2
            exact absurd hfw2 (by simp)
          · have hfw2i : lookupA (insertA s.frameworks fid0
                (Slave.removeExecutor framework e0 false).1) fid = some fw2 := by
              rw [← lookupA_eraseA_ne _ hrid]
              exact hfw2
            rcases lookupA_insertA_cases hfw2i with ⟨hf, hfw2eq⟩ | ⟨hf, hrest⟩
            · subst hfw2eq
              have hfweq : framework = fw := by
                rw [hf] at hlook
                rw [hfwg] at hlook
                injection hlook with h1
                exact h1.symm
              subst hfweq
              have he2d : lookupA (eraseA framework.executors e0.id) eid =
                  some e2 := he2
              by_cases heid : e0.id = eid
              · rw [heid] at he2d
                rw [lookupA_eraseA_self_of_nodup hnde] at he2d
                exact absurd he2d (by simp)
              · rw [lookupA_eraseA_ne _ heid] at he2d
                rw [he] at he2d
                injection he2d with h2
                exact absurd (congrArg Executor.resources h2.symm) hne
            · rw [hfw] at hrest
              injection hrest with h1
              subst h1
              rw [he] at he2
              injection he2 with h2
              exact absurd (congrArg Executor.resources h2.symm) hne
        next hemp =>
          simp only [Option.some.injEq, Prod.mk.injEq] at h
          obtain ⟨h1, -⟩ := h
          subst h1
          rcases lookupA_insertA_cases hfw2 with ⟨hf, hfw2eq⟩ | ⟨hf, hrest⟩
          · subst hfw2eq
            have hfweq : framework = fw := by
              rw [hf] at hlook
              rw [hfwg] at hlook
              injection hlook with h1
              exact h1.symm
            subst hfweq
            have he2d : lookupA (eraseA framework.executors e0.id) eid =
                some e2 := he2
            by_cases heid : e0.id = eid
            · rw [heid] at he2d
              rw [lookupA_eraseA_self_of_nodup hnde] at he2d
              exact absurd he2d (by simp)
            · rw [lookupA_eraseA_ne _ heid] at he2d
              rw [he] at he2d
              injection he2d with h2
              exact absurd (congrArg Executor.resources h2.symm) hne
          · rw [hfw] at hrest
            injection hrest with h1
            subst h1
            rw [he] at he2
            injection he2 with h2
            exact absurd (congrArg Executor.resources h2.symm) hne
  | exited sender0 =>
    simp only [step, Slave.exited, Option.some.injEq, Prod.mk.injEq] at h
    obtain ⟨h1, -⟩ := h
    subst h1
    exact absurd (congrArg Executor.resources (rc_unchanged hfw he hfw2 he2)) hne

/-- Counterexample to C3 as stated: a concrete reachable state in which the
framework holds an unacknowledged status update, yet the `executorExited`
callback — not `KillFramework` — drops the framework record. -/
theorem c3_counterexample :
    Reachable demoS3 ∧
    containsA demoFw3.updates "t1" = true ∧
    step demoS3 (Event.executorExited "f1" "e1" 137) = some (demoS4, demoEffs4) ∧
    Slave.getFramework demoS4 "f1" = none := by
  refine ⟨?_, rfl, rfl, rfl⟩
  have h0 : Reachable demoS0 :=
    Reachable.init demoSInfo [("cpus", 4), ("mem", 2048)]
  have h1 : Reachable demoS1 :=
    @Reachable.next demoS0 demoS1 demoEffs1
      (Event.runTask demoFInfo "f1" "sched" demoTask "dir") h0 rfl
  have h2 : Reachable demoS2 :=
    @Reachable.next demoS1 demoS2 demoEffs2
      (Event.registerExecutor "f1" "e1" "ex") h1 rfl
  exact @Reachable.next demoS2 demoS3 demoEffs3 (Event.statusUpdate demoU) h2 rfl

/-- Witness for C3 (amended) at the reachable fixture state: the invariant
holds concretely, and the fixture drop really is an `executorExited`. -/
theorem c3_witness :
    (∀ fp ∈ demoS3.frameworks, fp.2.id = fp.1 ∧ fp.2.executors ≠ []) ∧
    (Event.executorExited "f1" "e1" 137 = Event.killFramework "f1" ∨
      ∃ eid status,
        Event.executorExited "f1" "e1" 137 = Event.executorExited "f1" eid status) := by
  have hreach : Reachable demoS3 := by
    have h0 : Reachable demoS0 :=
      Reachable.init demoSInfo [("cpus", 4), ("mem", 2048)]
    have h1 : Reachable demoS1 :=
      @Reachable.next demoS0 demoS1 demoEffs1
        (Event.runTask demoFInfo "f1" "sched" demoTask "dir") h0 rfl
    have h2 : Reachable demoS2 :=
      @Reachable.next demoS1 demoS2 demoEffs2
        (Event.registerExecutor "f1" "e1" "ex") h1 rfl
    exact @Reachable.next demoS2 demoS3 demoEffs3 (Event.statusUpdate demoU) h2 rfl
  refine ⟨(c3_framework_retention demoS3 hreach).1, ?_⟩
  exact (c3_framework_retention demoS3 hreach).2 (Event.executorExited "f1" "e1" 137)
    demoS4 demoEffs4 "f1" (by rfl) (by rfl) (by rfl)

/-- C2: every handler preserves the resource-ledger invariant
`executor.resources = Σ resources(t) for t ∈ launchedTasks`, and any handler
run that changes an executor's `resources` field dispatches exactly one
`resourcesChanged` notification for that executor to the isolation module. -/
theorem c2_resource_ledger (s s2 : SlaveState) (ev : Event) (effs : List Effect)
    (h : step s ev = some (s2, effs)) :
    (stateLedgerOK s → stateLedgerOK s2) ∧
    ((s.frameworks.map Prod.fst).Nodup →
      ∀ fid fw fw2 eid e e2,
        lookupA s.frameworks fid = some fw →
        (fw.executors.map Prod.fst).Nodup →
        lookupA fw.executors eid = some e →
        lookupA s2.frameworks fid = some fw2 →
        lookupA fw2.executors eid = some e2 →
        e2.resources ≠ e.resources →
        (effs.filter (Effect.isRC fw.id e.id)).length = 1) :=
  ⟨fun hok => c2_ledger_step h hok, fun hnd => c2_rc_step h hnd⟩

/-- Witness for C2: the terminal `FINISHED` update at the fixture state —
the ledger stays consistent, and the single executor whose resources were
debited gets exactly one `resourcesChanged` dispatch. -/
theorem c2_witness :
    stateLedgerOK demoS2f ∧
    (demoEffs2f.filter (Effect.isRC demoFw2.id demoE2.id)).length = 1 := by
  have hthm := c2_resource_ledger demoS2 demoS2f (Event.statusUpdate demoUFin)
    demoEffs2f rfl
  constructor
  · apply hthm.1
    intro fp hfp ep hep
    have hfs : demoS2.frameworks = [("f1", demoFw2)] := rfl
    rw [hfs] at hfp
    have hfp2 := List.mem_singleton.1 hfp
    subst hfp2
    have hes : demoFw2.executors = [("e1", demoE2)] := rfl
    have hep2 : ep ∈ [("e1", demoE2)] := by
      rw [← hes]
      exact hep
    have hep3 := List.mem_singleton.1 hep2
    subst hep3
    intro n
    show Resources.eval demoE2.resources n = taskSum demoE2.launchedTasks n
    have h1 : demoE2.resources = [("cpus", 1)] := rfl
    have h2 : demoE2.launchedTasks = [("t1", taskOf "f1" "e1" demoTask)] := rfl
    rw [h1, h2]
    simp [Resources.eval, taskSum, taskOf, demoTask]
  · exact hthm.2 (by decide) "f1" demoFw2 demoFw2f "e1" demoE2 demoE2f
      (by rfl) (by decide) (by rfl) (by rfl) (by rfl) (by decide)

/-! ## Claim C1: queue-then-drain -/

/-- Re-inserting the value already present leaves the map unchanged. -/
theorem insertA_self {β : Type} {l : List (String × β)} {k : String} {v : β}
    (h : lookupA l k = some v) : insertA l k v = l := by
  induction l with
  | nil => simp [lookupA] at h
  | cons q rest ih =>
    obtain ⟨qk, qv⟩ := q
    by_cases hqk : qk = k
    · subst hqk
      simp [lookupA] at h
      subst h
      simp [insertA]
    · simp only [lookupA, if_neg hqk] at h
      simp only [insertA]
      rw [if_neg hqk, ih h]

/-- The messages delivered to one endpoint by a run of plain sends to it. -/
theorem sendsTo_sends {α : Type} (dest : String) (f : α → Msg) (l : List α) :
    sendsTo dest (l.map fun x => Effect.send dest (f x)) = l.map f := by
  induction l with
  | nil => rfl
  | cons x rest ih =>
    simp only [List.map_cons, sendsTo, List.filterMap_cons]
    simp only [sendsTo] at ih
    simp [ih]

/-- The queue phase of C1: while the executor has no endpoint, each
`RunTask` silently appends its task to `queuedTasks` and emits no effect. -/
theorem runTask_queue_steps (fid eid : String)
    (msgs : List (FrameworkInfo × String × TaskDescription × String)) :
    ∀ (s : SlaveState) (fw : Framework) (e : Executor),
      lookupA s.frameworks fid = some fw →
      lookupA fw.executors eid = some e →
      e.pid = "" →
      (∀ m ∈ msgs, ∃ ei, m.2.2.1.executor = some ei ∧ ei.executorId = eid) →
      (∀ m ∈ msgs, lookupA e.queuedTasks m.2.2.1.taskId = none) →
      (msgs.map (fun m => m.2.2.1.taskId)).Nodup →
      steps s (msgs.map (fun m => Event.runTask m.1 fid m.2.1 m.2.2.1 m.2.2.2)) =
        some ({ s with
            frameworks :=
              insertA s.frameworks fid
                ({ fw with
                    executors :=
                      insertA fw.executors eid
                        ({ e with
                            queuedTasks := e.queuedTasks ++
                              msgs.map (fun m => (m.2.2.1.taskId, m.2.2.1)) }) }) },
          []) := by
  induction msgs with
  | nil =>
    intro s fw e hfw he hpid hres hfresh hnodup
    simp only [List.map_nil, steps, List.append_nil]
    rw [show ({ e with queuedTasks := e.queuedTasks } : Executor) = e from rfl]
    rw [insertA_self he]
    rw [show ({ fw with executors := fw.executors } : Framework) = fw from rfl]
    rw [insertA_self hfw]
  | cons m rest ih =>
    intro s fw e hfw he hpid hres hfresh hnodup
    obtain ⟨ei, hei, heid⟩ := hres m (List.mem_cons_self _ _)
    have hq1 : lookupA e.queuedTasks m.2.2.1.taskId = none :=
      hfresh m (List.mem_cons_self _ _)
    have hstep : step s (Event.runTask m.1 fid m.2.1 m.2.2.1 m.2.2.2) =
        some ({ s with
            frameworks :=
              insertA s.frameworks fid
                ({ fw with
                    executors :=
                      insertA fw.executors eid
                        ({ e with
                            queuedTasks := e.queuedTasks ++
                              [(m.2.2.1.taskId, m.2.2.1)] }) }) },
          []) := by
      simp only [step, Slave.runTask, Slave.getFramework, hfw, hei, heid,
        Framework.getExecutor, he, hpid, if_true]
      rw [insertA_of_lookupA_none _ _ _ hq1]
    have hmem := ih
      ({ s with
          frameworks :=
            insertA s.frameworks fid
              ({ fw with
                  executors :=
                    insertA fw.executors eid
                      ({ e with
                          queuedTasks := e.queuedTasks ++
                            [(m.2.2.1.taskId, m.2.2.1)] }) }) })
      ({ fw with
          executors :=
            insertA fw.executors eid
              ({ e with
                  queuedTasks := e.queuedTasks ++
                    [(m.2.2.1.taskId, m.2.2.1)] }) })
      ({ e with queuedTasks := e.queuedTasks ++ [(m.2.2.1.taskId, m.2.2.1)] })
      (by rw [lookupA_insertA]; simp)
      (by
        show lookupA (insertA fw.executors eid _) eid = _
        rw [lookupA_insertA]
        simp)
      hpid
      (fun m' hm' => hres m' (List.mem_cons_of_mem _ hm'))
      (by
        intro m' hm'
        show lookupA (e.queuedTasks ++ [(m.2.2.1.taskId, m.2.2.1)])
          m'.2.2.1.taskId = none
        rw [lookupA_append, hfresh m' (List.mem_cons_of_mem _ hm')]
        have hne : m.2.2.1.taskId ≠ m'.2.2.1.taskId := by
          simp only [List.map_cons, List.nodup_cons] at hnodup
          exact fun hcontra => hnodup.1
            (hcontra ▸ List.mem_map_of_mem (fun m2 => m2.2.2.1.taskId) hm')
        simp [lookupA, hne])
      (by
        simp only [List.map_cons, List.nodup_cons] at hnodup
        exact hnodup.2)
    simp only [List.map_cons, steps, hstep, hmem]
    simp [insertA_insertA, List.append_assoc]

theorem sendsTo_cons_dispatch (dest : String) (c : IsoCall) (l : List Effect) :
    sendsTo dest (Effect.dispatch c :: l) = sendsTo dest l := rfl

theorem sendsTo_cons_send_self (dest : String) (m : Msg) (l : List Effect) :
    sendsTo dest (Effect.send dest m :: l) = m :: sendsTo dest l := by
  simp [sendsTo]

/-- C1 (corrected): for any sequence of `RunTask` messages for distinct
tasks arriving while executor `E` has no registered endpoint, followed by
`RegisterExecutor(E)` from `sender`, and for every admissible hashmap
iteration order `ord` (any permutation of the queued entries): the queue
phase emits nothing; the registration sends `E` exactly one
`ExecutorRegistered` followed by one `RunTask` per queued task, in the
iteration order `ord` — a permutation of arrival order, not necessarily
arrival order itself, since the C++ `foreachvalue` order is unspecified;
afterwards `E.queuedTasks` is empty and `E.launchedTasks` holds exactly
the arrived tasks as a multiset. The model's `registerExecutor` is the
instance of `registerExecutorOrd` at the stored insertion order. -/
theorem c1_queue_then_drain (s : SlaveState) (fid eid sender : String)
    (fw : Framework) (e : Executor)
    (msgs : List (FrameworkInfo × String × TaskDescription × String))
    (ord : List (String × TaskDescription))
    (hfw : lookupA s.frameworks fid = some fw)
    (he : lookupA fw.executors eid = some e)
    (hpid : e.pid = "")
    (hq : e.queuedTasks = [])
    (hl : e.launchedTasks = [])
    (hres : ∀ m ∈ msgs, ∃ ei, m.2.2.1.executor = some ei ∧ ei.executorId = eid)
    (hnodup : (msgs.map (fun m => m.2.2.1.taskId)).Nodup)
    (hperm : ord.Perm (msgs.map (fun m => (m.2.2.1.taskId, m.2.2.1))))
    (hsender : sender ≠ "") :
    ∃ s1 s2 effs2,
      steps s (msgs.map (fun m => Event.runTask m.1 fid m.2.1 m.2.2.1 m.2.2.2)) =
        some (s1, []) ∧
      Slave.registerExecutor s1 fid eid sender =
        Slave.registerExecutorOrd (msgs.map (fun m => (m.2.2.1.taskId, m.2.2.1)))
          s1 fid eid sender ∧
      Slave.registerExecutorOrd ord s1 fid eid sender = some (s2, effs2) ∧
      sendsTo sender effs2 =
        Msg.executorRegistered ⟨fw.id, e.id, s.id, s.info.hostname, e.info.data⟩ ::
          ord.map (fun p => Msg.runTaskMsg fw.info fw.id fw.pid p.2) ∧
      (sendsTo sender effs2).Perm
        (Msg.executorRegistered ⟨fw.id, e.id, s.id, s.info.hostname, e.info.data⟩ ::
          msgs.map (fun m => Msg.runTaskMsg fw.info fw.id fw.pid m.2.2.1)) ∧
      ∃ fw2 e2, lookupA s2.frameworks fid = some fw2 ∧
        lookupA fw2.executors eid = some e2 ∧
        e2.queuedTasks = [] ∧
        e2.launchedTasks.Perm
          (msgs.map (fun m => (m.2.2.1.taskId, taskOf e.frameworkId e.id m.2.2.1))) := by
  have hqfresh : ∀ m ∈ msgs, lookupA e.queuedTasks m.2.2.1.taskId = none := by
    intro m hm
    rw [hq]
    rfl
  have hsteps := runTask_queue_steps fid eid msgs s fw e hfw he hpid hres hqfresh
    hnodup
  rw [hq] at hsteps
  simp only [List.nil_append] at hsteps
  have hnodupOrd : (ord.map (fun p => p.2.taskId)).Nodup := by
    refine ((hperm.map (fun p => p.2.taskId)).nodup_iff).mpr ?_
    rw [List.map_map]
    exact hnodup
  have hfreshL : ∀ p ∈ ord, lookupA e.launchedTasks p.2.taskId = none := by
    intro p hp
    rw [hl]
    rfl
  obtain ⟨r, hr⟩ := runQueuedTasks_total fw.info fw.id fw.pid sender ord
    ({ e with pid := sender, queuedTasks := msgs.map (fun m => (m.2.2.1.taskId, m.2.2.1)) })
    s.stats hnodupOrd hfreshL
  obtain ⟨e3, st2, effs0⟩ := r
  obtain ⟨heffs0, hid3, hinfo3, hfid3, hdir3, hpid3, hq3, hl3, -⟩ :=
    runQueuedTasks_some fw.info fw.id fw.pid sender ord
      ({ e with pid := sender, queuedTasks := msgs.map (fun m => (m.2.2.1.taskId, m.2.2.1)) })
      s.stats e3 st2 effs0 hr
  have hsends : sendsTo sender
      (Effect.dispatch (IsoCall.resourcesChanged fw.id e.id e.resources) :: Effect.send sender (Msg.executorRegistered ⟨fw.id, e.id, s.id, s.info.hostname, e.info.data⟩) :: effs0) =
      Msg.executorRegistered ⟨fw.id, e.id, s.id, s.info.hostname, e.info.data⟩ ::
        ord.map (fun p => Msg.runTaskMsg fw.info fw.id fw.pid p.2) := by
    rw [sendsTo_cons_dispatch, sendsTo_cons_send_self, heffs0, sendsTo_sends]
  have hmapmsg : (msgs.map (fun m => (m.2.2.1.taskId, m.2.2.1))).map
      (fun p => Msg.runTaskMsg fw.info fw.id fw.pid p.2) =
      msgs.map (fun m => Msg.runTaskMsg fw.info fw.id fw.pid m.2.2.1) := by
    rw [List.map_map]
    rfl
  have hmaptask : (msgs.map (fun m => (m.2.2.1.taskId, m.2.2.1))).map
      (fun p => (p.2.taskId, taskOf e.frameworkId e.id p.2)) =
      msgs.map (fun m => (m.2.2.1.taskId, taskOf e.frameworkId e.id m.2.2.1)) := by
    rw [List.map_map]
    rfl
  refine ⟨_,
    ({ s with frameworks := insertA s.frameworks fid ({ fw with executors := insertA fw.executors eid ({ e3 with queuedTasks := [] }) }), stats := st2 }),
    (Effect.dispatch (IsoCall.resourcesChanged fw.id e.id e.resources) :: Effect.send sender (Msg.executorRegistered ⟨fw.id, e.id, s.id, s.info.hostname, e.info.data⟩) :: effs0),
    hsteps, ?_, ?_, hsends, ?_, ?_⟩
  · simp [Slave.registerExecutor, Slave.registerExecutorOrd, Slave.getFramework,
      Framework.getExecutor, lookupA_insertA, hpid]
  · simp [Slave.registerExecutorOrd, Slave.getFramework, Framework.getExecutor,
      lookupA_insertA, hpid, hr, insertA_insertA]
  · rw [hsends]
    exact List.Perm.cons _ ((hperm.map _).trans (hmapmsg ▸ List.Perm.refl _))
  · refine ⟨({ fw with executors := insertA fw.executors eid ({ e3 with queuedTasks := [] }) }),
      ({ e3 with queuedTasks := [] }), ?_, ?_, rfl, ?_⟩
    · show lookupA (insertA s.frameworks fid _) fid = _
      rw [lookupA_insertA]
      simp
    · show lookupA (insertA fw.executors eid _) eid = _
      rw [lookupA_insertA]
      simp
    · show List.Perm ({ e3 with queuedTasks := [] } : Executor).launchedTasks _
      show List.Perm e3.launchedTasks _
      rw [hl3]
      show List.Perm (e.launchedTasks ++
        ord.map (fun p => (p.2.taskId, taskOf e.frameworkId e.id p.2))) _
      rw [hl]
      simp only [List.nil_append]
      exact (hperm.map _).trans (hmaptask ▸ List.Perm.refl _)

/-- Witness for C1: a two-task queue (`t1` then `t2`) at the concrete state
`demoSW`, drained in the reversed iteration order by a `RegisterExecutor`
from endpoint `exec`. -/
theorem c1_witness :
    ∃ s1 s2 effs2,
      steps demoSW ([(demoFInfo, "sched", demoTask, "dir"), (demoFInfo, "sched", demoTask2, "dir")].map
        (fun m => Event.runTask m.1 "f1" m.2.1 m.2.2.1 m.2.2.2)) = some (s1, []) ∧
      Slave.registerExecutor s1 "f1" "e1" "exec" =
        Slave.registerExecutorOrd
          ([(demoFInfo, "sched", demoTask, "dir"), (demoFInfo, "sched", demoTask2, "dir")].map
            (fun m => (m.2.2.1.taskId, m.2.2.1)))
          s1 "f1" "e1" "exec" ∧
      Slave.registerExecutorOrd [("t2", demoTask2), ("t1", demoTask)]
        s1 "f1" "e1" "exec" = some (s2, effs2) ∧
      sendsTo "exec" effs2 =
        Msg.executorRegistered ⟨demoFw0.id, demoE0.id, demoSW.id,
          demoSW.info.hostname, demoE0.info.data⟩ ::
          [("t2", demoTask2), ("t1", demoTask)].map
            (fun p => Msg.runTaskMsg demoFw0.info demoFw0.id demoFw0.pid p.2) ∧
      (sendsTo "exec" effs2).Perm
        (Msg.executorRegistered ⟨demoFw0.id, demoE0.id, demoSW.id,
          demoSW.info.hostname, demoE0.info.data⟩ ::
          [(demoFInfo, "sched", demoTask, "dir"), (demoFInfo, "sched", demoTask2, "dir")].map
            (fun m => Msg.runTaskMsg demoFw0.info demoFw0.id demoFw0.pid m.2.2.1)) ∧
      ∃ fw2 e2, lookupA s2.frameworks "f1" = some fw2 ∧
        lookupA fw2.executors "e1" = some e2 ∧
        e2.queuedTasks = [] ∧
        e2.launchedTasks.Perm
          ([(demoFInfo, "sched", demoTask, "dir"), (demoFInfo, "sched", demoTask2, "dir")].map
            (fun m => (m.2.2.1.taskId, taskOf demoE0.frameworkId demoE0.id m.2.2.1))) :=
  c1_queue_then_drain demoSW "f1" "e1" "exec" demoFw0 demoE0
    [(demoFInfo, "sched", demoTask, "dir"), (demoFInfo, "sched", demoTask2, "dir")]
    [("t2", demoTask2), ("t1", demoTask)]
    rfl rfl rfl rfl rfl
    (by intro m hm; simp at hm; rcases hm with hm | hm <;> subst hm <;> exact ⟨demoEInfo, rfl, rfl⟩)
    (by decide)
    (by decide)
    (by decide)

/-- C1 counterexample to arrival-order delivery: with tasks `t1, t2` queued
in that arrival order, the reversed iteration order — admissible for the
C++ `hashmap`, whose `foreachvalue` order is unspecified — delivers
`RunTask(t2)` before `RunTask(t1)`, so the executor does not receive the
`RunTask` messages in the tasks' arrival order. -/
theorem c1_counterexample :
    [("t2", demoTask2), ("t1", demoTask)].Perm [("t1", demoTask), ("t2", demoTask2)] ∧
    sendsTo "exec" (demoRegOrd [("t2", demoTask2), ("t1", demoTask)] demoSW2 "f1" "e1" "exec").2 =
      [Msg.executorRegistered ⟨"f1", "e1", "S8", "host", "blob"⟩,
       Msg.runTaskMsg demoFInfo "f1" "sched" demoTask2,
       Msg.runTaskMsg demoFInfo "f1" "sched" demoTask] ∧
    sendsTo "exec" (demoRegOrd [("t2", demoTask2), ("t1", demoTask)] demoSW2 "f1" "e1" "exec").2 ≠
      [Msg.executorRegistered ⟨"f1", "e1", "S8", "host", "blob"⟩,
       Msg.runTaskMsg demoFInfo "f1" "sched" demoTask,
       Msg.runTaskMsg demoFInfo "f1" "sched" demoTask2] :=
  ⟨by decide, by decide, by decide⟩

end Mesos
